import Mathlib

/-!
Verification development for a toxicity-tier / PII-redaction cascade.

The embedded program consists of four Python modules:
* `src/text_normalize.py` — `normalize_text`, a nine-step canonicalization pipeline;
* `src/overrides.py` — regex safelist/blocklist tables and `apply_overrides`;
* `src/pii.py` — `_overlaps`, `_luhn_ok`, `detect_pii`, `redact`;
* `app_streamlit.py` — `score_comment_cascade`, the scoring cascade.

Modelling conventions:
* Python `float` probabilities are embedded as `ℚ`.
* Python strings are processed as `List Char`; `String` wrappers keep the
  original signatures.
* Python's dynamic typing at entry points is embedded by the sum type `PyVal`;
  `pyStr` models Python's `str()` on the embedded constructors.
* Python regexes are embedded by a small executable regex engine (`RE`,
  `reMatch`): alternation is left-to-right, `*?` enumerates shortest-first,
  `*` and `{m,n}` longest-first, matching Python's backtracking preference
  order; `re.finditer` is `findMatches` (leftmost, then preference order,
  non-overlapping).
* Character classes (`\s`, `\w`, `\d`, lowercasing) are modelled at the ASCII
  level, which is where every rule pattern and every claim lives.
* External libraries (`ftfy.fix_text`, `unicodedata.normalize "NFKC"`,
  `emoji.replace_emoji`) are modelled as the identity map, which is their
  behaviour on text that is already clean ASCII; the optional `phonenumbers`
  capability is an `Option`-valued parameter, mirroring the guarded import.
-/

namespace Cascade

/-- Python's ASCII whitespace set (the characters `str.split`, `\s` and
`str.strip` agree on at the ASCII level): space, tab, LF, VT, FF, CR. -/
def isPyWs (c : Char) : Bool :=
  c.toNat == 32 || c.toNat == 9 || c.toNat == 10 || c.toNat == 11 ||
  c.toNat == 12 || c.toNat == 13

/-- Python word character for `\b` (ASCII model of `\w`): `[A-Za-z0-9_]`. -/
def isWordChar (c : Char) : Bool :=
  (65 ≤ c.toNat && c.toNat ≤ 90) || (97 ≤ c.toNat && c.toNat ≤ 122) ||
  (48 ≤ c.toNat && c.toNat ≤ 57) || c.toNat == 95

/-- ASCII model of Python `str.lower` on a single character. -/
def asciiLower (c : Char) : Char :=
  if 65 ≤ c.toNat && c.toNat ≤ 90 then Char.ofNat (c.toNat + 32) else c

/-- Python slice `text[a:b]` for `0 ≤ a`, `0 ≤ b` (clamping semantics). -/
def pySlice (l : List Char) (a b : Nat) : List Char :=
  (l.drop a).take (b - a)

/-- A dynamically typed Python value reaching the text entry points. -/
inductive PyVal where
  | strVal (s : String)
  | intVal (n : Int)
  | noneVal
  | listVal (xs : List String)
deriving DecidableEq

/-- Is the value a `str` (Python `isinstance(text, str)`)? -/
def PyVal.isStr : PyVal → Bool
  | .strVal _ => true
  | _ => false

/-- The single quote character (used by Python `repr` of strings). -/
def quoteChar : Char := Char.ofNat 39

/-- Models Python `str()` on the embedded constructors: a string is itself,
`str(5) = "5"`, `str(None) = "None"`, and a list of strings prints as
`['a', 'b']`. -/
def pyStr : PyVal → String
  | .strVal s => s
  | .intVal n => toString n
  | .noneVal => "None"
  | .listVal xs =>
      "[" ++ String.intercalate ", "
        (xs.map fun x => String.singleton quoteChar ++ x ++ String.singleton quoteChar) ++ "]"

/-! ## `src/text_normalize.py` -/

/-- `ftfy.fix_text` (step 1, mojibake repair). Modelled from the spec: an
external library, best-effort repair of encoding corruption; it is the
identity on text that is already valid (in particular on ASCII). -/
def fix_text (l : List Char) : List Char := l

/-- `unicodedata.normalize "NFKC"` (step 2). Modelled from the spec: Unicode
compatibility normalization, the identity on ASCII text. -/
def nfkc (l : List Char) : List Char := l

/-- The zero-width characters removed by step 3: U+200B, U+200C, U+200D,
U+FEFF (the keys of the `ZERO_WIDTH` table). -/
def isZeroWidth (c : Char) : Bool :=
  c.toNat == 0x200B || c.toNat == 0x200C || c.toNat == 0x200D || c.toNat == 0xFEFF

/-- Step 3: `s.translate(ZERO_WIDTH)` — delete the zero-width characters. -/
def strip_zero_width (l : List Char) : List Char :=
  l.filter fun c => !isZeroWidth c

/-- Step 4: `s.lower()` (ASCII model). -/
def py_lower (l : List Char) : List Char := l.map asciiLower

/-- Helper for step 5. `prev` is the current run's character and `cnt` how many
copies of it have been kept; a third or later copy of a non-newline character
is dropped, mirroring `re.sub(r"(.)\1{2,}", r"\1\1", s)` (where `.` does not
match a newline). -/
def collapseAux (prev : Char) (cnt : Nat) : List Char → List Char
  | [] => []
  | c :: rest =>
    if c == prev && !(prev == Char.ofNat 10) then
      if 2 ≤ cnt then collapseAux prev cnt rest
      else c :: collapseAux prev (cnt + 1) rest
    else c :: collapseAux c 1 rest

/-- Step 5: collapse runs of 3-or-more identical (non-newline) characters to
exactly 2. -/
def collapse_repeats : List Char → List Char
  | [] => []
  | c :: rest => c :: collapseAux c 1 rest

/-- `emoji.replace_emoji` (step 6). Modelled from the spec: an external
library replacing each emoji glyph by a padded `:name:` token; the identity on
text containing no emoji (in particular on ASCII). -/
def emoji_step (l : List Char) : List Char := l

/-- The `LEET_MAP` character substitution:
`0→o, 1→i, 3→e, 4→a, 5→s, 7→t, $→s, @→a, !→i`. -/
def leetSub (c : Char) : Char :=
  if c == '0' then 'o'
  else if c == '1' then 'i'
  else if c == '3' then 'e'
  else if c == '4' then 'a'
  else if c == '5' then 's'
  else if c == '7' then 't'
  else if c == '$' then 's'
  else if c == '@' then 'a'
  else if c == '!' then 'i'
  else c

/-- Step 7: `s.translate(LEET_MAP)`. -/
def leet_map (l : List Char) : List Char := l.map leetSub

/-- The character class kept by step 8: `[a-z0-9\s:,_\-.!?@#$%]`
(ASCII model of `\s`). -/
def keepChar (c : Char) : Bool :=
  (97 ≤ c.toNat && c.toNat ≤ 122) || (48 ≤ c.toNat && c.toNat ≤ 57) ||
  isPyWs c || c.toNat == 58 || c.toNat == 44 || c.toNat == 95 ||
  c.toNat == 45 || c.toNat == 46 || c.toNat == 33 || c.toNat == 63 ||
  c.toNat == 64 || c.toNat == 35 || c.toNat == 36 || c.toNat == 37

/-- Step 8: `re.sub(r"[^a-z0-9\s:,_\-\.\!\?@#\$%]", " ", s)` — every character
outside the keep class becomes a space. -/
def keep_filter (l : List Char) : List Char :=
  l.map fun c => if keepChar c then c else ' '

/-- Helper for step 9: accumulate the current word; whitespace closes it. -/
def wordsAux (cur : List Char) : List Char → List (List Char)
  | [] => if cur == [] then [] else [cur]
  | c :: rest =>
    if isPyWs c then
      if cur == [] then wordsAux [] rest else cur :: wordsAux [] rest
    else wordsAux (cur ++ [c]) rest

/-- Python `s.split()`: the maximal whitespace-free runs of `s`. -/
def pyWords (l : List Char) : List (List Char) := wordsAux [] l

/-- Step 9: `" ".join(s.split())`. -/
def ws_collapse (l : List Char) : List Char :=
  List.intercalate [' '] (pyWords l)

/-- `normalize_text` from `src/text_normalize.py`: coerce non-`str` input via
`str()`, then apply the nine normalization steps in order. -/
def normalize_text (s : PyVal) : String :=
  let s0 := pyStr s
  String.mk (ws_collapse (keep_filter (leet_map (emoji_step (collapse_repeats
    (py_lower (strip_zero_width (nfkc (fix_text s0.data)))))))))

/-- `normalize_text` specialized to an actual string argument (how the cascade
calls it). -/
def normalize_str (s : String) : String := normalize_text (PyVal.strVal s)

/-! ## A small executable regex engine

Enough of Python `re` to embed the patterns of `overrides.py` and `pii.py`:
character predicates, sequencing, alternation, lazy and greedy star over a
character class, and the word boundary `\b`. Bounded repetitions `{m,n}` are
expanded at pattern-construction time. -/

inductive RE where
  | eps
  | fail
  | pred (p : Char → Bool)
  | seq (a b : RE)
  | alt (a b : RE)
  | starL (p : Char → Bool)
  | starG (p : Char → Bool)
  | bnd

/-- Python `\b`: the position between `prev` and the head of `l` is a word
boundary iff exactly one side is a word character (text edges count as
non-word). -/
def isBoundary (prev : Option Char) (l : List Char) : Bool :=
  let b := match prev with | none => false | some c => isWordChar c
  let a := match l with | [] => false | c :: _ => isWordChar c
  b != a

/-- All ways `(pred p)*` can consume a prefix, shortest first (the lazy
preference order); each result is the last consumed character (or the
incoming `prev`) together with the remaining suffix. -/
def starLPos (p : Char → Bool) (prev : Option Char) : List Char → List (Option Char × List Char)
  | [] => [(prev, [])]
  | c :: rest =>
    (prev, c :: rest) :: (if p c then starLPos p (some c) rest else [])

/-- All matches of `r` anchored at the current position, in Python's
backtracking preference order (head = the match Python chooses). -/
def reMatch : RE → Option Char → List Char → List (Option Char × List Char)
  | .eps, prev, l => [(prev, l)]
  | .fail, _, _ => []
  | .pred p, _, [] => (fun _ => []) p
  | .pred p, _, c :: rest => if p c then [(some c, rest)] else []
  | .seq a b, prev, l => (reMatch a prev l).flatMap fun pr => reMatch b pr.1 pr.2
  | .alt a b, prev, l => reMatch a prev l ++ reMatch b prev l
  | .starL p, prev, l => starLPos p prev l
  | .starG p, prev, l => (starLPos p prev l).reverse
  | .bnd, prev, l => if isBoundary prev l then [(prev, l)] else []

/-- Is there a match of `r` starting at this or any later position?
(`prev` is the character before the current position.) -/
def searchFrom (r : RE) (prev : Option Char) : List Char → Bool
  | [] => !(reMatch r prev []).isEmpty
  | c :: rest => !(reMatch r prev (c :: rest)).isEmpty || searchFrom r (some c) rest

/-- Python `pattern.search(text) is not None`. -/
def reSearch (r : RE) (l : List Char) : Bool := searchFrom r none l

/-- Python `re.finditer` (fuelled scan): at each position take the preferred
match if any, record its span, and resume after it (after a zero-width match,
resume one character later). -/
def findIterAux (r : RE) : Nat → Option Char → Nat → List Char → List (Nat × Nat)
  | 0, _, _, _ => []
  | fuel + 1, prev, pos, l =>
    match (reMatch r prev l).head? with
    | some (pc, rest) =>
      let len := l.length - rest.length
      if len == 0 then
        match l with
        | [] => [(pos, pos)]
        | c :: rest' => (pos, pos) :: findIterAux r fuel (some c) (pos + 1) rest'
      else (pos, pos + len) :: findIterAux r fuel pc (pos + len) rest
    | none =>
      match l with
      | [] => []
      | c :: rest' => findIterAux r fuel (some c) (pos + 1) rest'

/-- The list of `(start, end)` spans of all `re.finditer` matches of `r`. -/
def findMatches (r : RE) (l : List Char) : List (Nat × Nat) :=
  findIterAux r (l.length + 1) none 0 l

/-! ### Pattern-construction combinators -/

/-- A literal character (case-sensitive). -/
def chr (c : Char) : RE := .pred fun d => d == c

/-- A literal character under `re.IGNORECASE` (give `c` in lowercase). -/
def chri (c : Char) : RE := .pred fun d => asciiLower d == c

/-- Sequence a list of fragments. -/
def seqList (l : List RE) : RE := l.foldr RE.seq RE.eps

/-- Alternation over a list of fragments, left-to-right preference. -/
def altList (l : List RE) : RE := l.foldr RE.alt RE.fail

/-- A case-sensitive literal string. -/
def lit (s : String) : RE := seqList (s.data.map chr)

/-- A case-insensitive literal string (give it in lowercase). -/
def liti (s : String) : RE := seqList (s.data.map chri)

/-- Greedy `r?`. -/
def optG (r : RE) : RE := .alt r .eps

/-- `r{n}`. -/
def repExact (r : RE) (n : Nat) : RE := seqList (List.replicate n r)

/-- Greedy `r{lo,hi}` (`hi ≥ lo`), expanded as `r{lo}` then `hi - lo` greedy
optionals — the first successful branch consumes as many copies as Python's
greedy bounded repetition. -/
def repRangeG (r : RE) (lo hi : Nat) : RE :=
  .seq (repExact r lo) (repExact (optG r) (hi - lo))

/-- `\s` (single whitespace character). -/
def wsRE : RE := .pred isPyWs

/-- `\d`. -/
def digitRE : RE := .pred Char.isDigit

/-- `.` (any character except newline). -/
def dotRE : RE := .pred fun c => !(c.toNat == 10)

/-- `.` under `re.S` (any character). -/
def dotAllRE : RE := .pred fun _ => true

/-- `\S` (non-whitespace). -/
def nonWsRE : RE := .pred fun c => !isPyWs c

/-- Greedy `p+` for a character class `p`. -/
def plusG (p : Char → Bool) : RE := .seq (.pred p) (.starG p)

/-! ## `src/overrides.py`: the rule tables -/

/-- `\b(i wish|hope)\s(you|he|she|they)\s(die|dies|died)\b`, IGNORECASE. -/
def threat1 : RE := seqList [.bnd, altList [liti "i wish", liti "hope"], wsRE,
  altList [liti "you", liti "he", liti "she", liti "they"], wsRE,
  altList [liti "die", liti "dies", liti "died"], .bnd]

/-- `\b(kill\syour\s?self|k\s?y\s?s)\b`, IGNORECASE. -/
def threat2 : RE := seqList [.bnd,
  altList [seqList [liti "kill", wsRE, liti "your", optG wsRE, liti "self"],
           seqList [chri 'k', optG wsRE, chri 'y', optG wsRE, chri 's']], .bnd]

/-- 1. Patterns for severe threats or wishes of harm (`THREAT_PATTERNS`). -/
def THREAT_PATTERNS : List RE := [threat1, threat2]

/-- `\b(his|my|your)\s(third|3rd)\s(leg)\b`, IGNORECASE. -/
def obscene1 : RE := seqList [.bnd, altList [liti "his", liti "my", liti "your"], wsRE,
  altList [liti "third", liti "3rd"], wsRE, liti "leg", .bnd]

/-- 2. Patterns for vulgar or obscene sexual references (`OBSCENE_PATTERNS`). -/
def OBSCENE_PATTERNS : List RE := [obscene1]

/-- `\b(i wish|hope)\s(you|he|she|they)\b.*?\b(humiliating|fail|suffer)\b`,
IGNORECASE. -/
def insult1 : RE := seqList [.bnd, altList [liti "i wish", liti "hope"], wsRE,
  altList [liti "you", liti "he", liti "she", liti "they"], .bnd,
  .starL (fun c => !(c.toNat == 10)), .bnd,
  altList [liti "humiliating", liti "fail", liti "suffer"], .bnd]

/-- `\b(idiot|moron|stupid|dumb|loser|pathetic|bitch|fuck)\b`, IGNORECASE. -/
def insult2 : RE := seqList [.bnd,
  altList [liti "idiot", liti "moron", liti "stupid", liti "dumb", liti "loser",
           liti "pathetic", liti "bitch", liti "fuck"], .bnd]

/-- 3. Patterns for insults, humiliation, and social attacks
(`INSULT_PATTERNS`). -/
def INSULT_PATTERNS : List RE := [insult1, insult2]

/-- `(?:bless\syour\s(little\s)?heart)`, IGNORECASE. -/
def passive1 : RE := seqList [liti "bless", wsRE, liti "your", wsRE,
  optG (seqList [liti "little", wsRE]), liti "heart"]

/-- `(?:i'm\ssure\syou\sthink)`, IGNORECASE. -/
def passive2 : RE := seqList [chri 'i', chr quoteChar, chri 'm', wsRE,
  liti "sure", wsRE, liti "you", wsRE, liti "think"]

/-- `(?:must\sbe\snice\sto\sbe)`, IGNORECASE. -/
def passive3 : RE := seqList [liti "must", wsRE, liti "be", wsRE, liti "nice",
  wsRE, liti "to", wsRE, liti "be"]

/-- 4. Patterns for veiled insults & passive-aggression
(`PASSIVE_AGGRESSIVE_PATTERNS`). -/
def PASSIVE_AGGRESSIVE_PATTERNS : List RE := [passive1, passive2, passive3]

/-- `\b(13/52|13/90)\b` (case-sensitive). -/
def dogWhistle1 : RE := seqList [.bnd, altList [lit "13/52", lit "13/90"], .bnd]

/-- `\b(globalist\sagenda)\b`, IGNORECASE. -/
def dogWhistle2 : RE := seqList [.bnd, liti "globalist", wsRE, liti "agenda", .bnd]

/-- 5. Patterns for dog whistles & coded hate speech (`DOG_WHISTLE_PATTERNS`). -/
def DOG_WHISTLE_PATTERNS : List RE := [dogWhistle1, dogWhistle2]

/-- `\b(got\swhat\s(he|she|they)\sdeserved)\b`, IGNORECASE. -/
def glorif1 : RE := seqList [.bnd, liti "got", wsRE, liti "what", wsRE,
  altList [liti "he", liti "she", liti "they"], wsRE, liti "deserved", .bnd]

/-- `\b(is\sa\shero\sfor\swhat\s(he|she)\sdid)\b`, IGNORECASE. -/
def glorif2 : RE := seqList [.bnd, liti "is", wsRE, liti "a", wsRE, liti "hero",
  wsRE, liti "for", wsRE, liti "what", wsRE, altList [liti "he", liti "she"],
  wsRE, liti "did", .bnd]

/-- 6. Patterns for glorification of violence (`GLORIFICATION_PATTERNS`). -/
def GLORIFICATION_PATTERNS : List RE := [glorif1, glorif2]

/-- `\b(world\swould\sbe\sbetter\swithout\syou)\b`, IGNORECASE. -/
def subtle1 : RE := seqList [.bnd, liti "world", wsRE, liti "would", wsRE,
  liti "be", wsRE, liti "better", wsRE, liti "without", wsRE, liti "you", .bnd]

/-- `\b(nobody\swould\seven\snotice\sif\syou\swere\sgone)\b`, IGNORECASE. -/
def subtle2 : RE := seqList [.bnd, liti "nobody", wsRE, liti "would", wsRE,
  liti "even", wsRE, liti "notice", wsRE, liti "if", wsRE, liti "you", wsRE,
  liti "were", wsRE, liti "gone", .bnd]

/-- 7. Patterns for subtle self-harm encouragement (`SUBTLE_THREAT_PATTERNS`). -/
def SUBTLE_THREAT_PATTERNS : List RE := [subtle1, subtle2]

/-- `\b(of\scourse\sa\s(woman|man)\swould)\b`, IGNORECASE. -/
def identity1 : RE := seqList [.bnd, liti "of", wsRE, liti "course", wsRE,
  liti "a", wsRE, altList [liti "woman", liti "man"], wsRE, liti "would", .bnd]

/-- `\b(typical\s(french|american|german|etc)\sbehavior)\b`, IGNORECASE. -/
def identity2 : RE := seqList [.bnd, liti "typical", wsRE,
  altList [liti "french", liti "american", liti "german", liti "etc"], wsRE,
  liti "behavior", .bnd]

/-- 8. Patterns for identity-based insults without slurs
(`IDENTITY_ATTACK_PATTERNS`). -/
def IDENTITY_ATTACK_PATTERNS : List RE := [identity1, identity2]

/-- `\b(free\sfollowers|buy\sfollwers|crypto\sgains)\b`, IGNORECASE. -/
def spam1 : RE := seqList [.bnd,
  altList [seqList [liti "free", wsRE, liti "followers"],
           seqList [liti "buy", wsRE, liti "follwers"],
           seqList [liti "crypto", wsRE, liti "gains"]], .bnd]

/-- `(bit\.ly/|tinyurl\.com/)`, IGNORECASE. -/
def spam2 : RE := altList [liti "bit.ly/", liti "tinyurl.com/"]

/-- 9. Patterns for spam and malicious links (`SPAM_PATTERNS`). -/
def SPAM_PATTERNS : List RE := [spam1, spam2]

/-- The combined blocklist, in source order. -/
def BLOCKLIST_PATTERNS : List RE :=
  THREAT_PATTERNS ++ OBSCENE_PATTERNS ++ INSULT_PATTERNS ++
  PASSIVE_AGGRESSIVE_PATTERNS ++ DOG_WHISTLE_PATTERNS ++
  GLORIFICATION_PATTERNS ++ SUBTLE_THREAT_PATTERNS ++
  IDENTITY_ATTACK_PATTERNS ++ SPAM_PATTERNS

/-- `NEGATIVE_VERBS` alternation:
`(killed|dead|destroyed|attacked|shot|poison|cancer|disease)`. -/
def NEGATIVE_VERBS : RE := altList [liti "killed", liti "dead", liti "destroyed",
  liti "attacked", liti "shot", liti "poison", liti "cancer", liti "disease"]

/-- `HARMLESS_OBJECTS` alternation. -/
def HARMLESS_OBJECTS : RE := altList [liti "plant", liti "battery", liti "phone",
  liti "car", liti "game", liti "server", liti "computer", liti "process",
  liti "task", liti "job", liti "engine", liti "ui", liti "feature", liti "logic"]

/-- `\b(words\slike|the\sword|saying)\s(bitch|fuck|idiot|stupid)\b`,
IGNORECASE — the meta-discussion safelist pattern. -/
def meta1 : RE := seqList [.bnd,
  altList [seqList [liti "words", wsRE, liti "like"],
           seqList [liti "the", wsRE, liti "word"],
           liti "saying"], wsRE,
  altList [liti "bitch", liti "fuck", liti "idiot", liti "stupid"], .bnd]

/-- `META_PATTERNS`: high-priority patterns for meta-discussion about words. -/
def META_PATTERNS : List RE := [meta1]

/-- `\b(my\s)?NEGATIVE_VERBS(\smy)?\sHARMLESS_OBJECTS\b`, IGNORECASE. -/
def generalSafe1 : RE := seqList [.bnd, optG (seqList [liti "my", wsRE]),
  NEGATIVE_VERBS, optG (seqList [wsRE, liti "my"]), wsRE, HARMLESS_OBJECTS, .bnd]

/-- `\b(the\s)?HARMLESS_OBJECTS(\sis|\swas)?\s(dead|died)\b`, IGNORECASE. -/
def generalSafe2 : RE := seqList [.bnd, optG (seqList [liti "the", wsRE]),
  HARMLESS_OBJECTS,
  optG (altList [seqList [wsRE, liti "is"], seqList [wsRE, liti "was"]]), wsRE,
  altList [liti "dead", liti "died"], .bnd]

/-- `\b(kill the|killing the)\s(process|job|server|task)\b`, IGNORECASE. -/
def generalSafe3 : RE := seqList [.bnd,
  altList [liti "kill the", liti "killing the"], wsRE,
  altList [liti "process", liti "job", liti "server", liti "task"], .bnd]

/-- `\b(this|your)\sHARMLESS_OBJECTS\s(is|is\san)\s(absolute\s)?(cancer|poison|disease)\b`,
IGNORECASE. -/
def generalSafe4 : RE := seqList [.bnd, altList [liti "this", liti "your"], wsRE,
  HARMLESS_OBJECTS, wsRE,
  altList [liti "is", seqList [liti "is", wsRE, liti "an"]], wsRE,
  optG (seqList [liti "absolute", wsRE]),
  altList [liti "cancer", liti "poison", liti "disease"], .bnd]

/-- `GENERAL_SAFELIST_PATTERNS`. -/
def GENERAL_SAFELIST_PATTERNS : List RE :=
  [generalSafe1, generalSafe2, generalSafe3, generalSafe4]

/-- `SAFELIST_PATTERNS = META_PATTERNS + GENERAL_SAFELIST_PATTERNS`. -/
def SAFELIST_PATTERNS : List RE := META_PATTERNS ++ GENERAL_SAFELIST_PATTERNS

/-- `apply_overrides(text, original_prob, original_tier)` from
`src/overrides.py`: meta-discussion safelist first, then the blocklist, then —
only for incoming tier MEDIUM or HIGH — the general safelist; otherwise the
model's prediction is returned unchanged. -/
def apply_overrides (text : String) (original_prob : ℚ) (original_tier : String) :
    ℚ × String :=
  if META_PATTERNS.any (fun p => reSearch p text.data) then
    ((1 : ℚ)/100, "OVERRIDE_SAFE")
  else if BLOCKLIST_PATTERNS.any (fun p => reSearch p text.data) then
    ((99 : ℚ)/100, "OVERRIDE_TOXIC")
  else if (original_tier == "MEDIUM" || original_tier == "HIGH") &&
      GENERAL_SAFELIST_PATTERNS.any (fun p => reSearch p text.data) then
    ((1 : ℚ)/100, "OVERRIDE_SAFE")
  else (original_prob, original_tier)

/-! ## `src/pii.py` -/

/-- `EMAIL_RE = \b[a-zA-Z0-9._%+\-]+@[a-zA-Z0-9.\-]+\.[A-Za-z]{2,}\b`. -/
def emailLocalClass (c : Char) : Bool :=
  (97 ≤ c.toNat && c.toNat ≤ 122) || (65 ≤ c.toNat && c.toNat ≤ 90) ||
  (48 ≤ c.toNat && c.toNat ≤ 57) || c.toNat == 46 || c.toNat == 95 ||
  c.toNat == 37 || c.toNat == 43 || c.toNat == 45

/-- `[a-zA-Z0-9.\-]` (the domain-body class of `EMAIL_RE`). -/
def emailDomainClass (c : Char) : Bool :=
  (97 ≤ c.toNat && c.toNat ≤ 122) || (65 ≤ c.toNat && c.toNat ≤ 90) ||
  (48 ≤ c.toNat && c.toNat ≤ 57) || c.toNat == 46 || c.toNat == 45

/-- `[A-Za-z]`. -/
def alphaClass (c : Char) : Bool :=
  (97 ≤ c.toNat && c.toNat ≤ 122) || (65 ≤ c.toNat && c.toNat ≤ 90)

/-- `EMAIL_RE`: matches common email formats. -/
def EMAIL_RE : RE := seqList [.bnd, plusG emailLocalClass, chr '@',
  plusG emailDomainClass, chr '.', .pred alphaClass, .pred alphaClass,
  .starG alphaClass, .bnd]

/-- `CARD_RE = \b(?:\d[ -]*?){13,19}\b`: sequences of 13 to 19 digits, which
may include spaces or hyphens. -/
def CARD_RE : RE := seqList [.bnd,
  repRangeG (.seq digitRE (.starL fun c => c.toNat == 32 || c.toNat == 45)) 13 19,
  .bnd]

/-- `URL_RE = (?i)\b(?:https?://|www\.)\S+`: matches URLs. -/
def URL_RE : RE := seqList [.bnd,
  altList [seqList [liti "http", optG (chri 's'), liti "://"], liti "www."],
  plusG (fun c => !isPyWs c)]

/-- The backtick character. -/
def backtickChar : Char := Char.ofNat 96

/-- `CODE_RE = ```.*?```|`[^`]*?` ` with `re.S`: fenced or inline code spans. -/
def CODE_RE : RE :=
  .alt (seqList [lit (String.mk [backtickChar, backtickChar, backtickChar]),
                 .starL (fun _ => true),
                 lit (String.mk [backtickChar, backtickChar, backtickChar])])
       (seqList [chr backtickChar, .starL (fun c => !(c == backtickChar)),
                 chr backtickChar])

/-- `[A-Z0-9\-]` under IGNORECASE (the code class of `ID_HINT`). -/
def idCodeClass (c : Char) : Bool :=
  (97 ≤ c.toNat && c.toNat ≤ 122) || (65 ≤ c.toNat && c.toNat ≤ 90) ||
  (48 ≤ c.toNat && c.toNat ≤ 57) || c.toNat == 45

/-- `ID_HINT = (?i)\b(order|ticket|issue|id|ref)\b.{0,10}[:#]?\s*[A-Z0-9\-]{3,}`:
common ID-like prefixes. -/
def ID_HINT : RE := seqList [.bnd,
  altList [liti "order", liti "ticket", liti "issue", liti "id", liti "ref"], .bnd,
  repRangeG dotRE 0 10,
  optG (.pred fun c => c.toNat == 58 || c.toNat == 35),
  .starG isPyWs,
  .pred idCodeClass, .pred idCodeClass, .pred idCodeClass, .starG idCodeClass]

/-- The broad phone-candidate regex `\+?[0-9()\-.\s]{7,}` used in
`detect_pii`. -/
def phoneClass (c : Char) : Bool :=
  (48 ≤ c.toNat && c.toNat ≤ 57) || c.toNat == 40 || c.toNat == 41 ||
  c.toNat == 45 || c.toNat == 46 || isPyWs c

/-- `\+?[0-9()\-.\s]{7,}`. -/
def PHONE_RE : RE := seqList [optG (chr '+'),
  repExact (.pred phoneClass) 7, .starG phoneClass]

/-- `_overlaps(span, spans_to_check)`: half-open interval intersection with any
listed span. -/
def _overlaps (span : Nat × Nat) (spans_to_check : List (Nat × Nat)) : Bool :=
  spans_to_check.any fun chk =>
    !(decide (span.2 ≤ chk.1) || decide (span.1 ≥ chk.2))

/-- The per-digit contribution of the Luhn loop: every alternate digit
(from the right) is doubled, subtracting 9 when the double exceeds 9. -/
def luhnChecksum : List Nat → Bool → Nat
  | [], _ => 0
  | d :: ds, is_alt =>
    (if is_alt then (if d * 2 > 9 then d * 2 - 9 else d * 2) else d) +
      luhnChecksum ds (!is_alt)

/-- `_luhn_ok(card_number)`: strip non-digits, require 13–19 digits, and check
the mod-10 Luhn checksum computed right-to-left. -/
def _luhn_ok (card_number : String) : Bool :=
  let digits := (card_number.data.filter Char.isDigit).map fun c => c.toNat - 48
  if !(13 ≤ digits.length && digits.length ≤ 19) then false
  else luhnChecksum digits.reverse false % 10 == 0

/-- A PII hit `(KIND, (start, end), value)` as returned by `detect_pii`. -/
abbrev Hit := String × (Nat × Nat) × String

/-- The guarded regions of a text: URL spans, code spans, ID-hint spans. -/
def guarded_spans (cs : List Char) : List (Nat × Nat) :=
  findMatches URL_RE cs ++ findMatches CODE_RE cs ++ findMatches ID_HINT cs

/-- The card candidate spans (`CARD_RE.finditer`). -/
def card_candidates (cs : List Char) : List (Nat × Nat) :=
  findMatches CARD_RE cs

/-- `detect_pii(text)` from `src/pii.py`. The optional `phonenumbers` library
is the `Option`-valued parameter (mirroring the guarded import): when present
it maps a candidate substring to its validated E.164 form, or `none` when
parsing/validation fails. The `isinstance(text, str)` guard is discharged by
the `String` type of the embedding (the cascade only calls `detect_pii` on
strings). Hits are emails, then phones, then Luhn-valid cards, each skipped
when its span overlaps a guarded span. -/
def detect_pii (phonenumbersLib : Option (String → Option String))
    (text : String) : List Hit :=
  let cs := text.data
  let guarded := guarded_spans cs
  let emailHits : List Hit := (findMatches EMAIL_RE cs).filterMap fun sp =>
    if _overlaps sp guarded then none
    else some ("EMAIL", sp, String.mk (pySlice cs sp.1 sp.2))
  let phoneHits : List Hit :=
    match phonenumbersLib with
    | none => []
    | some parseValidate => (findMatches PHONE_RE cs).filterMap fun sp =>
        if _overlaps sp guarded then none
        else (parseValidate (String.mk (pySlice cs sp.1 sp.2))).map
          fun e164 => ("PHONE", sp, e164)
  let cardHits : List Hit := (card_candidates cs).filterMap fun sp =>
    if _overlaps sp guarded then none
    else
      let digits_only := String.mk ((pySlice cs sp.1 sp.2).filter Char.isDigit)
      if _luhn_ok digits_only then some ("CARD", sp, digits_only) else none
  emailHits ++ phoneHits ++ cardHits

/-- The mask substituted for one hit by `redact`: emails keep the first two
local characters and the domain, phones keep the last two digits, cards keep
the last four digits; an unknown kind contributes nothing. -/
def maskOf (kind : String) (value : String) : List Char :=
  if kind == "EMAIL" then
    let local_part := value.data.takeWhile fun c => !(c == '@')
    let domain := (value.data.dropWhile fun c => !(c == '@')).drop 1
    local_part.take 2 ++ ('*' :: '*' :: '*' :: '@' :: domain)
  else if kind == "PHONE" then
    let digits := value.data.filter Char.isDigit
    if digits.length > 4 then
      '+' :: (List.replicate (digits.length - 4) '*' ++ digits.drop (digits.length - 2))
    else ('+' :: List.replicate 6 '*')
  else if kind == "CARD" then
    ("**** **** **** ").data ++ value.data.drop (value.data.length - 4)
  else []

/-- Stable insertion (by start offset) for the sort in `redact`; an element is
placed after every element whose start is strictly smaller, and after earlier
elements with an equal start — the order `sorted(hits, key=...)` produces. -/
def insertHit (h : Hit) : List Hit → List Hit
  | [] => [h]
  | g :: gs => if g.2.1.1 ≤ h.2.1.1 then g :: insertHit h gs else h :: g :: gs

/-- `sorted(hits, key=lambda x: x[1][0])`: stable sort by start offset. -/
def sortHits : List Hit → List Hit
  | [] => []
  | h :: t => insertHit h (sortHits t)

/-- The left-to-right pass of `redact`: copy the slice before each hit, emit
its mask, and continue from the hit's end; finally copy the tail. -/
def redactLoop (cs : List Char) : List Hit → Nat → List Char
  | [], last_index => cs.drop last_index
  | (kind, (s, e), value) :: rest, last_index =>
    pySlice cs last_index s ++ maskOf kind value ++ redactLoop cs rest e

/-- `redact(text, hits)` from `src/pii.py`: empty hit lists return the text
unchanged; otherwise the hits are sorted by start offset and substituted in a
single pass. -/
def redact (text : String) (hits : List Hit) : String :=
  match hits with
  | [] => text
  | _ => String.mk (redactLoop text.data (sortHits hits) 0)

/-! ## `app_streamlit.py`: the scoring cascade -/

/-- The policy thresholds `{high, medium, low}` from `policy.json`. -/
structure Policy where
  high : ℚ
  medium : ℚ
  low : ℚ

/-- The process-wide artifacts loaded at startup. The two classifier stages
and the isotonic calibrator are external oracles (spec §6), embedded as
function-valued fields; `has_bert` is the secondary-stage capability flag and
`phonenumbersLib` the optional phone-validation capability. -/
structure Artifacts where
  has_bert : Bool
  lr_prob : String → ℚ
  bert_prob_raw : String → ℚ
  bert_calibrator : ℚ → ℚ
  policy : Policy
  phonenumbersLib : Option (String → Option String)

/-- The result dictionary of `score_comment_cascade`. -/
structure ScoreResult where
  prob_final : ℚ
  tier : String
  pii_hits : List (String × String)
  redacted : PyVal
  escalated_to_bert : Bool
deriving DecidableEq

/-- Lines 74–87 of `app_streamlit.py`: the escalation gate. If BERT is
available and the baseline probability lies in the gray zone
`0.10 ≤ p < 0.60`, the (calibrated) secondary probability replaces the
baseline and the comment is marked escalated. -/
def escalateStage (has_bert : Bool) (prob_lr : ℚ) (bert_calibrated : ℚ) :
    ℚ × Bool :=
  if has_bert && (decide ((1 : ℚ)/10 ≤ prob_lr) && decide (prob_lr < (6 : ℚ)/10)) then
    (bert_calibrated, true)
  else (prob_lr, false)

/-- Lines 89–91 of `app_streamlit.py`: the descending threshold comparison
mapping the final probability to the model-derived tier. -/
def initial_tier (policy : Policy) (prob_final : ℚ) : String :=
  if prob_final ≥ policy.high then "HIGH"
  else if prob_final ≥ policy.medium then "MEDIUM"
  else if prob_final ≥ policy.low then "LOW"
  else "VERY_LOW"

/-- Python `not text.strip()`: the string is empty or all whitespace. -/
def pyStripEmpty (s : String) : Bool := s.data.all isPyWs

/-- `score_comment_cascade(text)` from `app_streamlit.py`. Non-string or
blank input short-circuits to the default result without invoking any stage;
otherwise: normalize, baseline probability, escalation gate, tier thresholds,
override rules, PII detection and redaction. -/
def score_comment_cascade (A : Artifacts) (text : PyVal) : ScoreResult :=
  if !text.isStr || pyStripEmpty (pyStr text) then
    ⟨0, "VERY_LOW", [], text, false⟩
  else
    let s := pyStr text
    let text_norm := normalize_text (PyVal.strVal s)
    let prob_lr := A.lr_prob text_norm
    let stage := escalateStage A.has_bert prob_lr
      (A.bert_calibrator (A.bert_prob_raw text_norm))
    let tier0 := initial_tier A.policy stage.1
    let ov := apply_overrides s stage.1 tier0
    let pii := detect_pii A.phonenumbersLib s
    ⟨ov.1, ov.2, pii.map (fun h => (h.1, h.2.2)),
      PyVal.strVal (redact s pii), stage.2⟩

/-! ## Auxiliary predicates used by the theorems -/

/-- The domain of the `LEET_MAP` substitution:
`{0, 1, 3, 4, 5, 7, $, @, !}`. -/
def isLeetChar (c : Char) : Bool :=
  c == '0' || c == '1' || c == '3' || c == '4' || c == '5' || c == '7' ||
  c == '$' || c == '@' || c == '!'

/-- `no3Run l` holds when `l` contains no run of three identical consecutive
characters (the precondition under which step 5 of the normalizer changes
nothing). -/
def no3Run : List Char → Bool
  | a :: b :: c :: t => !(a == b && b == c) && no3Run (b :: c :: t)
  | _ => true

/-- Does index `i` lie inside one of the half-open spans? -/
def inSpans (i : Nat) (spans : List (Nat × Nat)) : Bool :=
  spans.any fun sp => decide (sp.1 ≤ i) && decide (i < sp.2)

/-- The characters of `cs` whose index is at least `k` and outside every span,
in their original order (the frame left untouched by a redaction). -/
def outsideFrom (cs : List Char) (k : Nat) (spans : List (Nat × Nat)) :
    List Char :=
  (cs.enum.filter fun p => decide (k ≤ p.1) && !inSpans p.1 spans).map Prod.snd

/-- The characters of `cs` outside every span, in their original order. -/
def outsideChars (cs : List Char) (spans : List (Nat × Nat)) : List Char :=
  outsideFrom cs 0 spans

/-- Two hits have disjoint (non-overlapping) half-open spans. -/
def spanDisjoint (a b : Hit) : Prop :=
  a.2.1.2 ≤ b.2.1.1 ∨ b.2.1.2 ≤ a.2.1.1

instance (a b : Hit) : Decidable (spanDisjoint a b) :=
  inferInstanceAs (Decidable (a.2.1.2 ≤ b.2.1.1 ∨ b.2.1.2 ≤ a.2.1.1))

/-- The hits form a chain of well-formed spans starting at or after `k`: each
span starts no earlier than the previous span ends. -/
def ChainFrom : Nat → List Hit → Prop
  | _, [] => True
  | k, h :: rest => k ≤ h.2.1.1 ∧ h.2.1.1 ≤ h.2.1.2 ∧ ChainFrom h.2.1.2 rest

/-! ## Override-engine theorems (C1–C3) -/

/-- C1: Any raw text matching at least one meta-discussion safelist
pattern makes `apply_overrides` return exactly `(0.01, OVERRIDE_SAFE)`,
for every incoming probability and tier — in particular regardless of
whether the text also matches a blocklist pattern, since the meta check
runs first and returns immediately. -/
theorem c1_meta_safelist_precedence (text : String) (p : ℚ) (tier : String)
    (h : META_PATTERNS.any (fun pt => reSearch pt text.data) = true) :
    apply_overrides text p tier = ((1 : ℚ)/100, "OVERRIDE_SAFE") := by
  simp only [apply_overrides, h, if_true]

/-- Witness for C1 at the spec's own example, `"the word bitch is used too
much"`: it matches the meta pattern, *also* matches a blocklist pattern
(`\bbitch\b`), and still yields `(0.01, OVERRIDE_SAFE)`. -/
theorem c1_meta_safelist_precedence_witness :
    META_PATTERNS.any
      (fun pt => reSearch pt "the word bitch is used too much".data) = true ∧
    BLOCKLIST_PATTERNS.any
      (fun pt => reSearch pt "the word bitch is used too much".data) = true ∧
    apply_overrides "the word bitch is used too much" ((7 : ℚ)/10) "HIGH" =
      ((1 : ℚ)/100, "OVERRIDE_SAFE") :=
  ⟨by decide, by decide,
   c1_meta_safelist_precedence "the word bitch is used too much" ((7 : ℚ)/10) "HIGH"
     (by decide)⟩

/-- C2: Any raw text matching no meta-discussion pattern but at least one
blocklist pattern (any category) makes `apply_overrides` return exactly
`(0.99, OVERRIDE_TOXIC)`, for every incoming probability and tier — in
particular regardless of whether a general-safelist pattern also matches,
since the blocklist is checked before the general safelist and is terminal. -/
theorem c2_blocklist_forces_toxic (text : String) (p : ℚ) (tier : String)
    (hMeta : META_PATTERNS.any (fun pt => reSearch pt text.data) = false)
    (hBlock : BLOCKLIST_PATTERNS.any (fun pt => reSearch pt text.data) = true) :
    apply_overrides text p tier = ((99 : ℚ)/100, "OVERRIDE_TOXIC") := by
  simp only [apply_overrides, hMeta, hBlock, if_true, Bool.false_eq_true, if_false]

/-- Witness for C2 at `"you killed my plant, idiot"`: no meta pattern, a
blocklist match (`\bidiot\b`) *and* a general-safelist match
(`killed my plant`), and the result is `(0.99, OVERRIDE_TOXIC)` even at
incoming tier HIGH. -/
theorem c2_blocklist_forces_toxic_witness :
    META_PATTERNS.any
      (fun pt => reSearch pt "you killed my plant, idiot".data) = false ∧
    BLOCKLIST_PATTERNS.any
      (fun pt => reSearch pt "you killed my plant, idiot".data) = true ∧
    GENERAL_SAFELIST_PATTERNS.any
      (fun pt => reSearch pt "you killed my plant, idiot".data) = true ∧
    apply_overrides "you killed my plant, idiot" ((1 : ℚ)/2) "HIGH" =
      ((99 : ℚ)/100, "OVERRIDE_TOXIC") :=
  ⟨by decide, by decide, by decide,
   c2_blocklist_forces_toxic "you killed my plant, idiot" ((1 : ℚ)/2) "HIGH"
     (by decide) (by decide)⟩

/-- C3: For raw text matching no meta-discussion and no blocklist
pattern: a LOW or VERY_LOW incoming tier is returned unchanged together with
the incoming probability (even if a general-safelist pattern matches); a
MEDIUM or HIGH incoming tier with a general-safelist match yields
`(0.01, OVERRIDE_SAFE)`; and when no general-safelist pattern matches the
input probability and tier are returned unchanged. -/
theorem c3_general_safelist_gating (text : String) (p : ℚ) (tier : String)
    (hMeta : META_PATTERNS.any (fun pt => reSearch pt text.data) = false)
    (hBlock : BLOCKLIST_PATTERNS.any (fun pt => reSearch pt text.data) = false) :
    ((tier = "LOW" ∨ tier = "VERY_LOW") →
      apply_overrides text p tier = (p, tier)) ∧
    ((tier = "MEDIUM" ∨ tier = "HIGH") →
      GENERAL_SAFELIST_PATTERNS.any (fun pt => reSearch pt text.data) = true →
      apply_overrides text p tier = ((1 : ℚ)/100, "OVERRIDE_SAFE")) ∧
    (GENERAL_SAFELIST_PATTERNS.any (fun pt => reSearch pt text.data) = false →
      apply_overrides text p tier = (p, tier)) := by
  refine ⟨?_, ?_, ?_⟩
  · have hLow : (("LOW" == "MEDIUM") || ("LOW" == "HIGH")) = false := by decide
    have hVLow : (("VERY_LOW" == "MEDIUM") || ("VERY_LOW" == "HIGH")) = false := by
      decide
    rintro (rfl | rfl)
    · simp only [apply_overrides, hMeta, hBlock, hLow, Bool.false_and,
        Bool.false_eq_true, if_false]
    · simp only [apply_overrides, hMeta, hBlock, hVLow, Bool.false_and,
        Bool.false_eq_true, if_false]
  · have hMed : (("MEDIUM" == "MEDIUM") || ("MEDIUM" == "HIGH")) = true := by decide
    have hHigh : (("HIGH" == "MEDIUM") || ("HIGH" == "HIGH")) = true := by decide
    rintro (rfl | rfl) hGen
    · simp only [apply_overrides, hMeta, hBlock, hMed, hGen, Bool.and_self,
        Bool.false_eq_true, if_false, if_true]
    · simp only [apply_overrides, hMeta, hBlock, hHigh, hGen, Bool.and_self,
        Bool.false_eq_true, if_false, if_true]
  · intro hGen
    simp only [apply_overrides, hMeta, hBlock, hGen, Bool.false_eq_true,
      Bool.and_false, if_false]

/-- Witness for C3 at `"you killed my plant"`, which matches a
general-safelist pattern and nothing else: a VERY_LOW incoming tier is left
unchanged, while a MEDIUM incoming tier is overridden to
`(0.01, OVERRIDE_SAFE)`. -/
theorem c3_general_safelist_gating_witness :
    GENERAL_SAFELIST_PATTERNS.any
      (fun pt => reSearch pt "you killed my plant".data) = true ∧
    apply_overrides "you killed my plant" ((3 : ℚ)/100) "VERY_LOW" =
      ((3 : ℚ)/100, "VERY_LOW") ∧
    apply_overrides "you killed my plant" ((1 : ℚ)/2) "MEDIUM" =
      ((1 : ℚ)/100, "OVERRIDE_SAFE") :=
  ⟨by decide,
   (c3_general_safelist_gating "you killed my plant" ((3 : ℚ)/100) "VERY_LOW"
      (by decide) (by decide)).1 (Or.inr rfl),
   (c3_general_safelist_gating "you killed my plant" ((1 : ℚ)/2) "MEDIUM"
      (by decide) (by decide)).2.1 (Or.inl rfl) (by decide)⟩

/-! ## Cascade theorems (C4–C5) -/

/-- C4: The secondary (BERT) stage is invoked exactly when it is
available and the baseline probability lies in `0.10 ≤ p < 0.60`: exactly
`0.10` escalates (when the stage is available), exactly `0.60` never does,
and whenever escalation does not happen the stage's final probability is the
baseline probability. Moreover the cascade's `escalated_to_bert` field for
non-blank string input is exactly this stage's flag. -/
theorem c4_escalation_gate (has_bert : Bool) (p b : ℚ) :
    ((escalateStage has_bert p b).2 = true ↔
      (has_bert = true ∧ (1 : ℚ)/10 ≤ p ∧ p < (6 : ℚ)/10)) ∧
    (has_bert = true → (escalateStage has_bert ((1 : ℚ)/10) b).2 = true) ∧
    ((escalateStage has_bert ((6 : ℚ)/10) b).2 = false) ∧
    ((escalateStage has_bert p b).2 = false → (escalateStage has_bert p b).1 = p) ∧
    (∀ (A : Artifacts) (s : String), pyStripEmpty s = false →
      (score_comment_cascade A (PyVal.strVal s)).escalated_to_bert =
        (escalateStage A.has_bert (A.lr_prob (normalize_text (PyVal.strVal s)))
          (A.bert_calibrator (A.bert_prob_raw (normalize_text (PyVal.strVal s))))).2) := by
  refine ⟨?_, ?_, ?_, ?_, ?_⟩
  · unfold escalateStage
    constructor
    · intro ht
      by_cases hc : (has_bert &&
          (decide ((1 : ℚ)/10 ≤ p) && decide (p < (6 : ℚ)/10))) = true
      · simpa only [Bool.and_eq_true, decide_eq_true_eq] using hc
      · rw [if_neg hc] at ht
        cases ht
    · rintro ⟨h1, h2, h3⟩
      rw [if_pos (by rw [h1]; simp only [Bool.true_and, Bool.and_eq_true,
        decide_eq_true_eq]; exact ⟨h2, h3⟩)]
  · intro hb
    unfold escalateStage
    rw [if_pos (by rw [hb]; simp only [Bool.true_and, Bool.and_eq_true,
      decide_eq_true_eq]; exact ⟨le_refl _, by norm_num⟩)]
  · unfold escalateStage
    rw [if_neg fun h => by
      simp only [Bool.and_eq_true, decide_eq_true_eq] at h
      exact absurd h.2.2 (lt_irrefl _)]
  · unfold escalateStage
    split
    · intro hfalse; simp at hfalse
    · intro _; rfl
  · intro A s hs
    unfold score_comment_cascade
    have hstr : (PyVal.strVal s).isStr = true := rfl
    have hps : pyStr (PyVal.strVal s) = s := rfl
    simp only [hstr, hps, hs, Bool.not_true, Bool.false_or, Bool.false_eq_true,
      if_false]

/-- Witness for C4 at `has_bert = true`, baseline `0.10` (escalates), and a
concrete cascade call on `"ok"` with a baseline of `0.60` (does not
escalate). -/
theorem c4_escalation_gate_witness :
    (escalateStage true ((1 : ℚ)/10) ((1 : ℚ)/4)).2 = true ∧
    (escalateStage true ((6 : ℚ)/10) ((1 : ℚ)/4)).2 = false ∧
    (escalateStage true ((3 : ℚ)/4) ((1 : ℚ)/4)).1 = (3 : ℚ)/4 :=
  ⟨(c4_escalation_gate true ((1 : ℚ)/10) ((1 : ℚ)/4)).2.1 rfl,
   (c4_escalation_gate true ((6 : ℚ)/10) ((1 : ℚ)/4)).2.2.1,
   (c4_escalation_gate true ((3 : ℚ)/4) ((1 : ℚ)/4)).2.2.2.1 (by
     have h34 : ¬((3 : ℚ)/4 < (6 : ℚ)/10) := by norm_num
     simp [escalateStage, h34])⟩

/-- C5: Under the precondition `high > medium > low`, the tier of a final
probability `p` is `HIGH` iff `p ≥ high`, `MEDIUM` on `medium ≤ p < high`,
`LOW` on `low ≤ p < medium`, `VERY_LOW` below `low`; and a probability
exactly equal to any threshold takes the higher tier (inclusive
comparisons). -/
theorem c5_tier_thresholds (pol : Policy) (p : ℚ)
    (h1 : pol.medium < pol.high) (h2 : pol.low < pol.medium) :
    (pol.high ≤ p → initial_tier pol p = "HIGH") ∧
    (pol.medium ≤ p → p < pol.high → initial_tier pol p = "MEDIUM") ∧
    (pol.low ≤ p → p < pol.medium → initial_tier pol p = "LOW") ∧
    (p < pol.low → initial_tier pol p = "VERY_LOW") ∧
    initial_tier pol pol.high = "HIGH" ∧
    initial_tier pol pol.medium = "MEDIUM" ∧
    initial_tier pol pol.low = "LOW" := by
  unfold initial_tier
  refine ⟨?_, ?_, ?_, ?_, ?_, ?_, ?_⟩
  · intro h; rw [if_pos h]
  · intro hm hh; rw [if_neg (not_le.mpr hh), if_pos hm]
  · intro hl hm
    rw [if_neg (not_le.mpr (hm.trans h1)), if_neg (not_le.mpr hm), if_pos hl]
  · intro hl
    rw [if_neg (not_le.mpr ((hl.trans h2).trans h1)),
      if_neg (not_le.mpr (hl.trans h2)), if_neg (not_le.mpr hl)]
  · rw [if_pos (le_refl _)]
  · rw [if_neg (not_le.mpr h1), if_pos (le_refl _)]
  · rw [if_neg (not_le.mpr (h2.trans h1)), if_neg (not_le.mpr h2),
      if_pos (le_refl _)]

/-- Witness for C5 at the thresholds `{0.8, 0.5, 0.2}`: each exact boundary
takes the higher tier and `0.1` falls to VERY_LOW. -/
theorem c5_tier_thresholds_witness :
    initial_tier ⟨(8 : ℚ)/10, (5 : ℚ)/10, (2 : ℚ)/10⟩ ((8 : ℚ)/10) = "HIGH" ∧
    initial_tier ⟨(8 : ℚ)/10, (5 : ℚ)/10, (2 : ℚ)/10⟩ ((5 : ℚ)/10) = "MEDIUM" ∧
    initial_tier ⟨(8 : ℚ)/10, (5 : ℚ)/10, (2 : ℚ)/10⟩ ((2 : ℚ)/10) = "LOW" ∧
    initial_tier ⟨(8 : ℚ)/10, (5 : ℚ)/10, (2 : ℚ)/10⟩ ((1 : ℚ)/10) = "VERY_LOW" :=
  ⟨(c5_tier_thresholds ⟨(8 : ℚ)/10, (5 : ℚ)/10, (2 : ℚ)/10⟩ ((8 : ℚ)/10)
      (by norm_num) (by norm_num)).2.2.2.2.1,
   (c5_tier_thresholds ⟨(8 : ℚ)/10, (5 : ℚ)/10, (2 : ℚ)/10⟩ ((5 : ℚ)/10)
      (by norm_num) (by norm_num)).2.2.2.2.2.1,
   (c5_tier_thresholds ⟨(8 : ℚ)/10, (5 : ℚ)/10, (2 : ℚ)/10⟩ ((2 : ℚ)/10)
      (by norm_num) (by norm_num)).2.2.2.2.2.2,
   (c5_tier_thresholds ⟨(8 : ℚ)/10, (5 : ℚ)/10, (2 : ℚ)/10⟩ ((1 : ℚ)/10)
      (by norm_num) (by norm_num)).2.2.2.1 (by norm_num)⟩

/-! ## Normalizer lemmas (towards C6) -/

/-- A map that fixes every member of a list is the identity on it. -/
theorem map_eq_self_of {f : Char → Char} {l : List Char}
    (h : ∀ c ∈ l, f c = c) : l.map f = l := by
  induction l with
  | nil => rfl
  | cons a t ih =>
    simp only [List.map_cons, h a (List.mem_cons_self a t)]
    rw [ih fun c hc => h c (List.mem_cons_of_mem a hc)]

/-- `intercalate` on a singleton. -/
theorem intercalate_one (s : List Char) (a : List Char) :
    List.intercalate s [a] = a := by
  simp [List.intercalate]

/-- `intercalate` peels its first block off a two-or-more list. -/
theorem intercalate_cons₂ (s a b : List Char) (t : List (List Char)) :
    List.intercalate s (a :: b :: t) = a ++ s ++ List.intercalate s (b :: t) := by
  simp [List.intercalate, List.append_assoc]

/-- Members of an `intercalate` come from the separator or from a block. -/
theorem mem_intercalate_cases (s : List Char) (ll : List (List Char))
    (c : Char) (hc : c ∈ List.intercalate s ll) :
    c ∈ s ∨ ∃ w ∈ ll, c ∈ w := by
  induction ll with
  | nil => simp [List.intercalate] at hc
  | cons a t ih =>
    match t with
    | [] =>
      rw [intercalate_one] at hc
      exact Or.inr ⟨a, List.mem_cons_self a [], hc⟩
    | b :: t' =>
      rw [intercalate_cons₂, List.append_assoc, List.mem_append] at hc
      rcases hc with h | h
      · exact Or.inr ⟨a, List.mem_cons_self a _, h⟩
      · rw [List.mem_append] at h
        rcases h with h | h
        · exact Or.inl h
        · rcases ih h with h' | ⟨w, hw, hcw⟩
          · exact Or.inl h'
          · exact Or.inr ⟨w, List.mem_cons_of_mem a hw, hcw⟩

/-- Characters of the words of `wordsAux` come from the accumulator or the
input. -/
theorem mem_wordsAux_chars (l : List Char) :
    ∀ (cur : List Char) (w : List Char), w ∈ wordsAux cur l →
      ∀ c ∈ w, c ∈ cur ∨ c ∈ l := by
  induction l with
  | nil =>
    intro cur w hw c hc
    unfold wordsAux at hw
    by_cases h : cur == []
    · simp [h] at hw
    · simp only [h, Bool.false_eq_true, if_false, List.mem_singleton] at hw
      exact Or.inl (hw ▸ hc)
  | cons a t ih =>
    intro cur w hw c hc
    unfold wordsAux at hw
    by_cases hws : isPyWs a
    · simp only [hws, if_true] at hw
      by_cases h : cur == []
      · simp only [h, if_true] at hw
        rcases ih [] w hw c hc with h' | h'
        · simp at h'
        · exact Or.inr (List.mem_cons_of_mem a h')
      · simp only [h, Bool.false_eq_true, if_false, List.mem_cons] at hw
        rcases hw with rfl | hw
        · exact Or.inl hc
        · rcases ih [] w hw c hc with h' | h'
          · simp at h'
          · exact Or.inr (List.mem_cons_of_mem a h')
    · simp only [hws, Bool.false_eq_true, if_false] at hw
      rcases ih (cur ++ [a]) w hw c hc with h' | h'
      · rw [List.mem_append, List.mem_singleton] at h'
        rcases h' with h' | rfl
        · exact Or.inl h'
        · exact Or.inr (List.mem_cons_self c t)
      · exact Or.inr (List.mem_cons_of_mem a h')

/-- Characters of `ws_collapse l` are spaces or characters of `l`. -/
theorem mem_ws_collapse (l : List Char) (c : Char) (hc : c ∈ ws_collapse l) :
    c = ' ' ∨ c ∈ l := by
  rcases mem_intercalate_cases [' '] (pyWords l) c hc with h | ⟨w, hw, hcw⟩
  · exact Or.inl (List.mem_singleton.mp h)
  · rcases mem_wordsAux_chars l [] w hw c hcw with h | h
    · simp at h
    · exact Or.inr h

/-- Every character surviving step 8 is in the keep class. -/
theorem mem_keep_filter (l : List Char) (c : Char) (hc : c ∈ keep_filter l) :
    keepChar c = true := by
  unfold keep_filter at hc
  rcases List.mem_map.mp hc with ⟨a, _, ha⟩
  by_cases h : keepChar a
  · rw [if_pos h] at ha; exact ha ▸ h
  · rw [if_neg h] at ha; exact ha ▸ (by decide : keepChar ' ' = true)

/-- Step 8 only passes characters through or replaces them by spaces. -/
theorem mem_keep_filter_or (l : List Char) (c : Char) (hc : c ∈ keep_filter l) :
    c = ' ' ∨ c ∈ l := by
  unfold keep_filter at hc
  rcases List.mem_map.mp hc with ⟨a, hal, ha⟩
  by_cases h : keepChar a
  · rw [if_pos h] at ha; exact Or.inr (ha ▸ hal)
  · rw [if_neg h] at ha; exact Or.inl ha.symm

/-- The leet substitution never produces a character of its own domain. -/
theorem leetSub_not_leet (c : Char) : isLeetChar (leetSub c) = false := by
  unfold leetSub
  split_ifs with h1 h2 h3 h4 h5 h6 h7 h8 h9
  · decide
  · decide
  · decide
  · decide
  · decide
  · decide
  · decide
  · decide
  · decide
  · simp only [Bool.not_eq_true] at h1 h2 h3 h4 h5 h6 h7 h8 h9
    simp [isLeetChar, h1, h2, h3, h4, h5, h6, h7, h8, h9]

/-- The leet substitution fixes characters outside its domain. -/
theorem leetSub_eq_self (c : Char) (h : isLeetChar c = false) : leetSub c = c := by
  simp only [isLeetChar, Bool.or_eq_false_iff] at h
  obtain ⟨⟨⟨⟨⟨⟨⟨⟨h0, h1⟩, h3⟩, h4⟩, h5⟩, h7⟩, hd⟩, ha⟩, hb⟩ := h
  simp [leetSub, h0, h1, h3, h4, h5, h7, hd, ha, hb]

/-- Characters of step 7's output are outside the leet domain. -/
theorem mem_leet_map (l : List Char) (c : Char) (hc : c ∈ leet_map l) :
    isLeetChar c = false := by
  rcases List.mem_map.mp hc with ⟨a, _, ha⟩
  exact ha ▸ leetSub_not_leet a

/-- Keep-class characters have code at most 122. -/
theorem keepChar_le (c : Char) (h : keepChar c = true) : c.toNat ≤ 122 := by
  simp only [keepChar, isPyWs, Bool.or_eq_true, Bool.and_eq_true,
    decide_eq_true_eq, beq_iff_eq] at h
  omega

/-- Keep-class characters contain no uppercase letters, so `lower` fixes
them. -/
theorem keepChar_lower (c : Char) (h : keepChar c = true) : asciiLower c = c := by
  simp only [keepChar, isPyWs, Bool.or_eq_true, Bool.and_eq_true,
    decide_eq_true_eq, beq_iff_eq] at h
  unfold asciiLower
  rw [if_neg]
  intro hc
  simp only [Bool.and_eq_true, decide_eq_true_eq] at hc
  omega

/-- Keep-class characters are not zero-width characters. -/
theorem keepChar_not_zw (c : Char) (h : keepChar c = true) :
    isZeroWidth c = false := by
  have hle := keepChar_le c h
  simp only [isZeroWidth, Bool.or_eq_false_iff, beq_eq_false_iff_ne, ne_eq]
  omega

/-- Defining equation of `wordsAux` on the empty list. -/
theorem wordsAux_nil (cur : List Char) :
    wordsAux cur [] = if cur == [] then [] else [cur] := rfl

/-- Defining equation of `wordsAux` on a cons. -/
theorem wordsAux_cons (cur : List Char) (c : Char) (rest : List Char) :
    wordsAux cur (c :: rest) =
      if isPyWs c then
        (if cur == [] then wordsAux [] rest else cur :: wordsAux [] rest)
      else wordsAux (cur ++ [c]) rest := rfl

/-- `wordsAux` over a whitespace-free block consumes it into the
accumulator. -/
theorem wordsAux_append (w : List Char) :
    ∀ (cur l : List Char), (∀ c ∈ w, isPyWs c = false) →
      wordsAux cur (w ++ l) = wordsAux (cur ++ w) l := by
  induction w with
  | nil => intro cur l _; rw [List.append_nil, List.nil_append]
  | cons a t ih =>
    intro cur l hw
    have ha : isPyWs a = false := hw a (List.mem_cons_self a t)
    show wordsAux cur (a :: (t ++ l)) = _
    rw [wordsAux_cons, ha]
    simp only [Bool.false_eq_true, if_false]
    rw [ih (cur ++ [a]) l fun c hc => hw c (List.mem_cons_of_mem a hc),
      List.append_assoc]
    rfl

/-- Splitting an `intercalate` of nonempty whitespace-free words recovers
exactly those words. -/
theorem pyWords_intercalate (ws : List (List Char))
    (h : ∀ w ∈ ws, w ≠ [] ∧ ∀ c ∈ w, isPyWs c = false) :
    pyWords (List.intercalate [' '] ws) = ws := by
  induction ws with
  | nil => rfl
  | cons a t ih =>
    obtain ⟨ha, haws⟩ := h a (List.mem_cons_self a t)
    have hane : (a == ([] : List Char)) = false := by
      rcases a with _ | ⟨x, xs⟩
      · exact absurd rfl ha
      · rfl
    match t with
    | [] =>
      rw [intercalate_one]
      show wordsAux [] a = [a]
      have hstep := wordsAux_append a [] [] haws
      rw [List.append_nil, List.nil_append] at hstep
      rw [hstep, wordsAux_nil, hane]
      simp
    | b :: t' =>
      rw [intercalate_cons₂, List.append_assoc]
      show wordsAux [] (a ++ ([' '] ++ List.intercalate [' '] (b :: t'))) =
        a :: b :: t'
      rw [wordsAux_append a [] _ haws, List.nil_append]
      show wordsAux a (' ' :: List.intercalate [' '] (b :: t')) = a :: b :: t'
      rw [wordsAux_cons, show isPyWs ' ' = true from rfl, if_pos rfl, hane]
      simp only [Bool.false_eq_true, if_false]
      show a :: pyWords (List.intercalate [' '] (b :: t')) = a :: b :: t'
      rw [ih fun w hw => h w (List.mem_cons_of_mem a hw)]

/-- The words produced by `pyWords` are nonempty and whitespace-free. -/
theorem pyWords_ok (l : List Char) :
    ∀ (cur : List Char), (∀ c ∈ cur, isPyWs c = false) →
      ∀ w ∈ wordsAux cur l, w ≠ [] ∧ ∀ c ∈ w, isPyWs c = false := by
  induction l with
  | nil =>
    intro cur hcur w hw
    unfold wordsAux at hw
    by_cases h : cur == []
    · simp [h] at hw
    · simp only [h, Bool.false_eq_true, if_false, List.mem_singleton] at hw
      subst hw
      refine ⟨?_, hcur⟩
      intro hnil
      subst hnil
      simp at h
  | cons a t ih =>
    intro cur hcur w hw
    unfold wordsAux at hw
    by_cases hws : isPyWs a
    · simp only [hws, if_true] at hw
      by_cases h : cur == []
      · simp only [h, if_true] at hw
        exact ih [] (by simp) w hw
      · simp only [h, Bool.false_eq_true, if_false, List.mem_cons] at hw
        rcases hw with rfl | hw
        · refine ⟨?_, hcur⟩
          intro hnil
          subst hnil
          simp at h
        · exact ih [] (by simp) w hw
    · simp only [hws, Bool.false_eq_true, if_false] at hw
      refine ih (cur ++ [a]) ?_ w hw
      intro c hc
      rw [List.mem_append, List.mem_singleton] at hc
      rcases hc with hc | rfl
      · exact hcur c hc
      · simpa using hws

/-- Step 9 is idempotent. -/
theorem ws_collapse_idem (l : List Char) :
    ws_collapse (ws_collapse l) = ws_collapse l := by
  unfold ws_collapse
  rw [pyWords_intercalate (pyWords l) (pyWords_ok l [] (by simp))]

/-- `no3Run` passes to the tail. -/
theorem no3Run_tail (a : Char) (l : List Char) (h : no3Run (a :: l) = true) :
    no3Run l = true := by
  match l with
  | [] => rfl
  | [b] => rfl
  | b :: c :: t =>
    unfold no3Run at h
    rw [Bool.and_eq_true] at h
    exact h.2

/-- Defining equation of `collapseAux` on a cons. -/
theorem collapseAux_cons (p : Char) (cnt : Nat) (c : Char) (rest : List Char) :
    collapseAux p cnt (c :: rest) =
      if c == p && !(p == Char.ofNat 10) then
        (if 2 ≤ cnt then collapseAux p cnt rest
         else c :: collapseAux p (cnt + 1) rest)
      else c :: collapseAux c 1 rest := rfl

/-- On lists without a 3-run, the collapse pass copies everything: the two
counter states reachable from a fresh run behave identically. -/
theorem collapseAux_no3Run (l : List Char) :
    ∀ p : Char, (no3Run (p :: l) = true → collapseAux p 1 l = l) ∧
      (no3Run (p :: p :: l) = true → collapseAux p 2 l = l) := by
  induction l with
  | nil => intro p; exact ⟨fun _ => rfl, fun _ => rfl⟩
  | cons c rest ih =>
    intro p
    constructor
    · intro h
      rw [collapseAux_cons]
      by_cases hcp : (c == p && !(p == Char.ofNat 10)) = true
      · have hcp' := hcp
        rw [Bool.and_eq_true] at hcp'
        have hc : c = p := beq_iff_eq.mp hcp'.1
        rw [if_pos hcp, if_neg (by omega : ¬(2 ≤ 1))]
        subst hc
        rw [(ih c).2 h]
      · rw [if_neg hcp]
        rw [(ih c).1 (no3Run_tail p _ h)]
    · intro h
      have h' := h
      rw [show no3Run (p :: p :: c :: rest) =
        (!(p == p && p == c) && no3Run (p :: c :: rest)) from rfl,
        Bool.and_eq_true] at h'
      obtain ⟨h1, _⟩ := h'
      have hpc : (p == c) = false := by
        cases hb : (p == c)
        · rfl
        · rw [hb, beq_self_eq_true, Bool.and_true, Bool.not_true] at h1
          cases h1
      have hcp : (c == p) = false := by
        rw [beq_eq_false_iff_ne] at hpc ⊢
        exact fun hne => hpc hne.symm
      rw [collapseAux_cons, hcp]
      simp only [Bool.false_and, Bool.false_eq_true, if_false]
      rw [(ih c).1 (no3Run_tail p _ (no3Run_tail p _ h))]

/-- Step 5 fixes every list without a 3-run. -/
theorem collapse_repeats_eq_self (l : List Char) (h : no3Run l = true) :
    collapse_repeats l = l := by
  match l with
  | [] => rfl
  | c :: rest =>
    show c :: collapseAux c 1 rest = c :: rest
    rw [(collapseAux_no3Run rest c).1 h]

/-- C6 counterexample: `normalize_text` is *not* idempotent. On `"o0o"` the
leet step turns `o0o` into `ooo` after the repeat-collapse step has already
run, so the first pass returns `"ooo"` while a second pass collapses it to
`"oo"`. -/
theorem c6_normalize_not_idempotent :
    normalize_str "o0o" = "ooo" ∧
    normalize_str (normalize_str "o0o") ≠ normalize_str "o0o" := by
  constructor
  · decide
  · decide

/-- C6 (amended): the nine-step `normalize_text` pipeline is idempotent on
every string whose normalized form contains no run of three identical
characters; in general a second application can differ, because the
single-pass leet substitution (step 7) may create a fresh 3-run after the
repeat-collapse (step 5) has already run. -/
theorem c6_normalize_idempotent_of_no3Run (s : String)
    (h : no3Run (normalize_str s).data = true) :
    normalize_str (normalize_str s) = normalize_str s := by
  have hkeep : ∀ c ∈ (normalize_str s).data, keepChar c = true := by
    intro c hc
    rcases mem_ws_collapse _ c hc with rfl | hc'
    · decide
    · exact mem_keep_filter _ c hc'
  have hleet : ∀ c ∈ (normalize_str s).data, isLeetChar c = false := by
    intro c hc
    rcases mem_ws_collapse _ c hc with rfl | hc'
    · decide
    · rcases mem_keep_filter_or _ c hc' with rfl | hc''
      · decide
      · exact mem_leet_map _ c hc''
  have hzw : strip_zero_width (normalize_str s).data = (normalize_str s).data :=
    List.filter_eq_self.mpr fun c hc => by
      rw [keepChar_not_zw c (hkeep c hc)]; rfl
  have hlow : py_lower (normalize_str s).data = (normalize_str s).data :=
    map_eq_self_of fun c hc => keepChar_lower c (hkeep c hc)
  have hcol : collapse_repeats (normalize_str s).data = (normalize_str s).data :=
    collapse_repeats_eq_self _ h
  have hlm : leet_map (normalize_str s).data = (normalize_str s).data :=
    map_eq_self_of fun c hc => leetSub_eq_self c (hleet c hc)
  have hkf : keep_filter (normalize_str s).data = (normalize_str s).data :=
    map_eq_self_of fun c hc => by rw [if_pos (hkeep c hc)]
  have hws : ws_collapse (normalize_str s).data = (normalize_str s).data :=
    ws_collapse_idem _
  show String.mk (ws_collapse (keep_filter (leet_map (emoji_step
    (collapse_repeats (py_lower (strip_zero_width (nfkc (fix_text
      (pyStr (PyVal.strVal (normalize_str s))).data))))))))) = normalize_str s
  show String.mk (ws_collapse (keep_filter (leet_map (emoji_step
    (collapse_repeats (py_lower (strip_zero_width
      (normalize_str s).data))))))) = normalize_str s
  rw [hzw, hlow, hcol, show emoji_step (normalize_str s).data =
    (normalize_str s).data from rfl, hlm, hkf, hws]

/-- Witness for the amended C6 on `"Hello World"`, whose normal form
`"hello world"` has no 3-run. -/
theorem c6_normalize_idempotent_of_no3Run_witness :
    no3Run (normalize_str "Hello World").data = true ∧
    normalize_str (normalize_str "Hello World") = normalize_str "Hello World" :=
  ⟨by decide, c6_normalize_idempotent_of_no3Run "Hello World" (by decide)⟩

/-! ## Redaction lemmas (towards C8 and C9) -/

/-- Indices in `enumFrom n` are at least `n`. -/
theorem le_fst_of_mem_enumFrom (cs : List Char) :
    ∀ (n : Nat) (p : Nat × Char), p ∈ List.enumFrom n cs → n ≤ p.1 := by
  induction cs with
  | nil => intro n p hp; simp at hp
  | cons c t ih =>
    intro n p hp
    rw [List.enumFrom_cons, List.mem_cons] at hp
    rcases hp with rfl | hp
    · exact Nat.le_refl n
    · exact Nat.le_of_succ_le (ih (n + 1) p hp)

/-- Indices in `enumFrom n` are nondecreasing. -/
theorem pairwise_le_enumFrom (cs : List Char) :
    ∀ n : Nat,
      List.Pairwise (fun p q : Nat × Char => p.1 ≤ q.1) (List.enumFrom n cs) := by
  induction cs with
  | nil => intro n; simp
  | cons c t ih =>
    intro n
    rw [List.enumFrom_cons]
    exact List.Pairwise.cons
      (fun q hq => Nat.le_of_succ_le (le_fst_of_mem_enumFrom t (n + 1) q hq))
      (ih (n + 1))

/-- Keeping the indices below `s` of an `enumFrom n` is a `take`. -/
theorem enumFrom_filter_lt (cs : List Char) :
    ∀ n s : Nat,
      ((List.enumFrom n cs).filter fun p => decide (p.1 < s)).map Prod.snd
        = cs.take (s - n) := by
  induction cs with
  | nil => intro n s; simp
  | cons c t ih =>
    intro n s
    rw [List.enumFrom_cons]
    by_cases h : n < s
    · rw [List.filter_cons_of_pos (by simpa using h), List.map_cons, ih (n + 1) s]
      have hs : s - n = (s - (n + 1)) + 1 := by omega
      rw [hs, List.take_succ_cons]
    · rw [List.filter_cons_of_neg (by simpa using h), ih (n + 1) s]
      have h1 : s - n = 0 := by omega
      have h2 : s - (n + 1) = 0 := by omega
      rw [h1, h2, List.take_zero, List.take_zero]

/-- Keeping the indices at least `k` of an `enumFrom n` is a `drop`. -/
theorem enumFrom_filter_ge (cs : List Char) :
    ∀ n k : Nat,
      ((List.enumFrom n cs).filter fun p => decide (k ≤ p.1)).map Prod.snd
        = cs.drop (k - n) := by
  induction cs with
  | nil => intro n k; simp
  | cons c t ih =>
    intro n k
    rw [List.enumFrom_cons]
    by_cases h : k ≤ n
    · rw [List.filter_cons_of_pos (by simpa using h), List.map_cons, ih (n + 1) k]
      have h1 : k - n = 0 := by omega
      have h2 : k - (n + 1) = 0 := by omega
      rw [h1, h2, List.drop_zero, List.drop_zero]
    · rw [List.filter_cons_of_neg (by simpa using h), ih (n + 1) k]
      have h1 : k - n = (k - (n + 1)) + 1 := by omega
      rw [h1, List.drop_succ_cons]

/-- Keeping the index window `[k, s)` of an `enumFrom n`, `n ≤ k`, is a
`drop` then `take` — exactly a Python slice. -/
theorem enumFrom_filter_range (cs : List Char) :
    ∀ n k s : Nat, n ≤ k →
      ((List.enumFrom n cs).filter fun p =>
          decide (k ≤ p.1) && decide (p.1 < s)).map Prod.snd
        = (cs.drop (k - n)).take (s - k) := by
  induction cs with
  | nil => intro n k s _; simp
  | cons c t ih =>
    intro n k s hnk
    rw [List.enumFrom_cons]
    by_cases hk : n < k
    · rw [List.filter_cons_of_neg (by simp; omega), ih (n + 1) k s (by omega)]
      have h1 : k - n = (k - (n + 1)) + 1 := by omega
      rw [h1, List.drop_succ_cons]
    · have hnk' : n = k := by omega
      subst hnk'
      by_cases hs : n < s
      · rw [List.filter_cons_of_pos (by simp; omega), List.map_cons]
        have hcongr : ((List.enumFrom (n + 1) t).filter fun p =>
            decide (n ≤ p.1) && decide (p.1 < s))
            = (List.enumFrom (n + 1) t).filter fun p => decide (p.1 < s) := by
          apply List.filter_congr
          intro p hp
          have hle := le_fst_of_mem_enumFrom t (n + 1) p hp
          have : decide (n ≤ p.1) = true := by simp; omega
          rw [this, Bool.true_and]
        rw [hcongr, enumFrom_filter_lt t (n + 1) s]
        have h0 : n - n = 0 := by omega
        have h1 : s - n = (s - (n + 1)) + 1 := by omega
        rw [h0, List.drop_zero, h1, List.take_succ_cons]
      · rw [List.filter_cons_of_neg (by simp; omega)]
        have hnil : ((List.enumFrom (n + 1) t).filter fun p =>
            decide (n ≤ p.1) && decide (p.1 < s)) = [] := by
          rw [List.filter_eq_nil_iff]
          intro p hp
          have hle := le_fst_of_mem_enumFrom t (n + 1) p hp
          simp
          omega
        rw [hnil]
        have h1 : s - n = 0 := by omega
        rw [h1]
        simp

/-- A filter by a disjunction of an early predicate and a late predicate
splits across an index-sorted list. -/
theorem filter_or_split (A B : Nat × Char → Bool) (s e : Nat)
    (hA : ∀ p, A p = true → p.1 < s) (hB : ∀ p, B p = true → e ≤ p.1)
    (hse : s ≤ e) :
    ∀ l : List (Nat × Char),
      List.Pairwise (fun p q : Nat × Char => p.1 ≤ q.1) l →
      l.filter (fun p => A p || B p) = l.filter A ++ l.filter B := by
  intro l
  induction l with
  | nil => intro _; rfl
  | cons a t ih =>
    intro hl
    rw [List.pairwise_cons] at hl
    obtain ⟨hat, ht⟩ := hl
    by_cases hAa : A a = true
    · have hBa : B a = false := by
        cases hb : B a
        · rfl
        · have h1 := hA a hAa
          have h2 := hB a hb
          omega
      rw [List.filter_cons_of_pos (by simp [hAa]),
        List.filter_cons_of_pos hAa,
        List.filter_cons_of_neg (by simp [hBa]), ih ht, List.cons_append]
    · by_cases hBa : B a = true
      · have hAt : t.filter A = [] := by
          rw [List.filter_eq_nil_iff]
          intro p hp hap
          have h1 := hA p hap
          have h2 := hB a hBa
          have h3 := hat p hp
          omega
        have hAa' : A a = false := by
          cases ha : A a
          · rfl
          · exact absurd ha (by simpa using hAa)
        rw [List.filter_cons_of_pos (by simp [hAa', hBa]),
          List.filter_cons_of_neg (by simp [hAa']),
          List.filter_cons_of_pos hBa, ih ht, hAt, List.nil_append,
          List.nil_append]
      · have hAa' : A a = false := by
          cases ha : A a
          · rfl
          · exact absurd ha (by simpa using hAa)
        have hBa' : B a = false := by
          cases hb : B a
          · rfl
          · exact absurd hb (by simpa using hBa)
        rw [List.filter_cons_of_neg (by simp [hAa', hBa']),
          List.filter_cons_of_neg (by simp [hAa']),
          List.filter_cons_of_neg (by simp [hBa']), ih ht]

/-- With no spans, the frame from `k` is just the tail of the text. -/
theorem outsideFrom_nil_spans (cs : List Char) (k : Nat) :
    outsideFrom cs k [] = cs.drop k := by
  unfold outsideFrom
  have hcongr : (cs.enum.filter fun p => decide (k ≤ p.1) && !inSpans p.1 [])
      = cs.enum.filter fun p => decide (k ≤ p.1) := by
    apply List.filter_congr
    intro p _
    rw [show inSpans p.1 [] = false from rfl]
    rw [Bool.not_false, Bool.and_true]
  rw [hcongr]
  have := enumFrom_filter_ge cs 0 k
  rw [Nat.sub_zero] at this
  exact this

/-- Peeling the first span off the frame: the characters outside a sorted,
disjoint span list from position `k` are the gap before the first span
followed by the frame after it. -/
theorem outsideFrom_cons_span (cs : List Char) (k s e : Nat)
    (spans' : List (Nat × Nat)) (hks : k ≤ s) (hse : s ≤ e)
    (hsp : ∀ sp ∈ spans', e ≤ sp.1) :
    outsideFrom cs k ((s, e) :: spans')
      = pySlice cs k s ++ outsideFrom cs e spans' := by
  unfold outsideFrom
  have hpoint : ∀ p : Nat × Char, p ∈ cs.enum →
      ((decide (k ≤ p.1) && !inSpans p.1 ((s, e) :: spans'))
        = ((decide (k ≤ p.1) && decide (p.1 < s))
            || (decide (e ≤ p.1) && !inSpans p.1 spans'))) := by
    intro p _
    have hcons : inSpans p.1 ((s, e) :: spans')
        = ((decide (s ≤ p.1) && decide (p.1 < e)) || inSpans p.1 spans') := by
      unfold inSpans
      rw [List.any_cons]
    rw [hcons]
    by_cases h1 : p.1 < s
    · have hnotin : inSpans p.1 spans' = false := by
        unfold inSpans
        rw [List.any_eq_false]
        intro sp hsp'
        have := hsp sp hsp'
        simp only [Bool.and_eq_true, decide_eq_true_eq, not_and]
        omega
      have hd1 : decide (s ≤ p.1) = false := by simp; omega
      have hd3 : decide (e ≤ p.1) = false := by simp; omega
      have hd2 : decide (p.1 < s) = true := by simp [h1]
      rw [hd1, hd2, hd3, hnotin]
      simp
    · by_cases h2 : p.1 < e
      · have hd1 : decide (s ≤ p.1) = true := by simp; omega
        have hd2 : decide (p.1 < e) = true := by simp [h2]
        have hd3 : decide (p.1 < s) = false := by simp; omega
        have hd4 : decide (e ≤ p.1) = false := by simp; omega
        rw [hd1, hd2, hd3, hd4]
        simp
      · have hd2 : decide (p.1 < e) = false := by simp; omega
        have hd3 : decide (p.1 < s) = false := by simp; omega
        have hd4 : decide (e ≤ p.1) = true := by simp; omega
        have hdk : decide (k ≤ p.1) = true := by simp; omega
        rw [hd2, hd3, hd4, hdk]
        simp
  rw [List.filter_congr hpoint]
  rw [filter_or_split _ _ s e
    (fun p hp => by
      rw [Bool.and_eq_true] at hp
      simpa using hp.2)
    (fun p hp => by
      rw [Bool.and_eq_true] at hp
      simpa using hp.1)
    hse cs.enum (pairwise_le_enumFrom cs 0)]
  rw [List.map_append]
  have hA : (cs.enum.filter fun p =>
      decide (k ≤ p.1) && decide (p.1 < s)).map Prod.snd
      = (cs.drop (k - 0)).take (s - k) :=
    enumFrom_filter_range cs 0 k s (Nat.zero_le k)
  rw [Nat.sub_zero] at hA
  rw [hA]
  rfl

/-- The lower bound of a chain bounds every span start in it. -/
theorem chainFrom_le (t : List Hit) :
    ∀ k : Nat, ChainFrom k t → ∀ sp ∈ t.map fun h => h.2.1, k ≤ sp.1 := by
  induction t with
  | nil => intro k _ sp hsp; simp at hsp
  | cons h t ih =>
    intro k hc sp hsp
    obtain ⟨h1, h2, h3⟩ := hc
    rw [List.map_cons, List.mem_cons] at hsp
    rcases hsp with rfl | hsp
    · exact h1
    · have := ih h.2.1.2 h3 sp hsp
      omega

/-- The frame of a chained hit list is a sublist of the redaction pass:
every character outside the spans survives, verbatim and in order. -/
theorem outsideFrom_sublist_redactLoop (cs : List Char) :
    ∀ (l : List Hit) (k : Nat), ChainFrom k l →
      List.Sublist (outsideFrom cs k (l.map fun h => h.2.1))
        (redactLoop cs l k) := by
  intro l
  induction l with
  | nil =>
    intro k _
    rw [List.map_nil, outsideFrom_nil_spans]
    exact List.Sublist.refl _
  | cons h t ih =>
    intro k hc
    obtain ⟨kind, ⟨s, e⟩, v⟩ := h
    obtain ⟨h1, h2, h3⟩ := hc
    rw [List.map_cons,
      outsideFrom_cons_span cs k s e _ h1 h2 (chainFrom_le t e h3),
      show redactLoop cs ((kind, (s, e), v) :: t) k
        = pySlice cs k s ++ maskOf kind v ++ redactLoop cs t e from rfl,
      List.append_assoc]
    exact List.Sublist.append (List.Sublist.refl _)
      ((ih e h3).trans (List.sublist_append_right _ _))

/-- `insertHit` permutes to a cons. -/
theorem perm_insertHit (h : Hit) (l : List Hit) :
    (insertHit h l).Perm (h :: l) := by
  induction l with
  | nil => exact List.Perm.refl _
  | cons g gs ih =>
    unfold insertHit
    by_cases hc : g.2.1.1 ≤ h.2.1.1
    · rw [if_pos hc]
      exact (List.Perm.cons g ih).trans (List.Perm.swap h g gs)
    · rw [if_neg hc]

/-- The redaction sort is a permutation. -/
theorem perm_sortHits (l : List Hit) : (sortHits l).Perm l := by
  induction l with
  | nil => exact List.Perm.refl _
  | cons h t ih => exact (perm_insertHit h (sortHits t)).trans (List.Perm.cons h ih)

/-- `insertHit` preserves sortedness by start offset. -/
theorem sorted_insertHit (h : Hit) (l : List Hit)
    (hs : List.Pairwise (fun a b : Hit => a.2.1.1 ≤ b.2.1.1) l) :
    List.Pairwise (fun a b : Hit => a.2.1.1 ≤ b.2.1.1) (insertHit h l) := by
  induction l with
  | nil => simp [insertHit]
  | cons g gs ih =>
    rw [List.pairwise_cons] at hs
    obtain ⟨hg, hgs⟩ := hs
    unfold insertHit
    by_cases hc : g.2.1.1 ≤ h.2.1.1
    · rw [if_pos hc, List.pairwise_cons]
      refine ⟨?_, ih hgs⟩
      intro x hx
      have hx' := (perm_insertHit h gs).mem_iff.mp hx
      rw [List.mem_cons] at hx'
      rcases hx' with rfl | hx'
      · exact hc
      · exact hg x hx'
    · rw [if_neg hc, List.pairwise_cons]
      refine ⟨?_, List.Pairwise.cons hg hgs⟩
      intro x hx
      rw [List.mem_cons] at hx
      rcases hx with rfl | hx
      · omega
      · exact Nat.le_trans (by omega) (hg x hx)

/-- The redaction sort sorts by start offset. -/
theorem sorted_sortHits (l : List Hit) :
    List.Pairwise (fun a b : Hit => a.2.1.1 ≤ b.2.1.1) (sortHits l) := by
  induction l with
  | nil => simp [sortHits]
  | cons h t ih => exact sorted_insertHit h (sortHits t) ih

/-- A sorted list of pairwise-disjoint, nondegenerate hits is a chain. -/
theorem chainFrom_build (l : List Hit) :
    ∀ k : Nat, List.Pairwise (fun a b : Hit => a.2.1.1 ≤ b.2.1.1) l →
      List.Pairwise spanDisjoint l → (∀ h ∈ l, h.2.1.1 < h.2.1.2) →
      (∀ h ∈ l, k ≤ h.2.1.1) → ChainFrom k l := by
  induction l with
  | nil => intro k _ _ _ _; trivial
  | cons h t ih =>
    intro k hsort hdis hnd hk
    rw [List.pairwise_cons] at hsort hdis
    refine ⟨hk h (List.mem_cons_self h t),
      Nat.le_of_lt (hnd h (List.mem_cons_self h t)), ?_⟩
    apply ih h.2.1.2 hsort.2 hdis.2
      (fun g hg => hnd g (List.mem_cons_of_mem h hg))
    intro g hg
    rcases hdis.1 g hg with hd | hd
    · exact hd
    · have h1 := hsort.1 g hg
      have h2 := hnd g (List.mem_cons_of_mem h hg)
      omega

/-- `any` is invariant under permutation of the list. -/
theorem any_congr_perm {l₁ l₂ : List (Nat × Nat)} (h : l₁.Perm l₂)
    (p : (Nat × Nat) → Bool) : l₁.any p = l₂.any p := by
  cases hb : l₂.any p
  · rw [List.any_eq_false] at hb ⊢
    exact fun x hx => hb x (h.mem_iff.mp hx)
  · rw [List.any_eq_true] at hb ⊢
    obtain ⟨x, hx, hpx⟩ := hb
    exact ⟨x, h.mem_iff.mpr hx, hpx⟩

/-- Every hit's mask appears in the redaction pass over a list containing
it. -/
theorem mask_sublist_redactLoop (cs : List Char) (l : List Hit) :
    ∀ (k : Nat) (h : Hit), h ∈ l →
      List.Sublist (maskOf h.1 h.2.2) (redactLoop cs l k) := by
  induction l with
  | nil => intro k h hmem; exact absurd hmem (List.not_mem_nil h)
  | cons g t ih =>
    intro k h hmem
    obtain ⟨kind, ⟨s, e⟩, v⟩ := g
    rw [List.mem_cons] at hmem
    rw [show redactLoop cs ((kind, (s, e), v) :: t) k
        = pySlice cs k s ++ maskOf kind v ++ redactLoop cs t e from rfl,
      List.append_assoc]
    rcases hmem with rfl | hmem
    · exact (List.sublist_append_left (maskOf kind v)
        (redactLoop cs t e)).trans (List.sublist_append_right _ _)
    · exact ((ih e h hmem).trans
        (List.sublist_append_right _ _)).trans (List.sublist_append_right _ _)

/-- C8: `redact(text, [])` returns the text unchanged, and for every list of
pairwise non-overlapping, in-bounds (nondegenerate) hits, every character of
the original text outside the hits' spans appears verbatim and in its
original relative order in the redacted output. -/
theorem c8_redact_frame (text : String) (hits : List Hit) :
    redact text [] = text ∧
    (List.Pairwise spanDisjoint hits →
      (∀ h ∈ hits, h.2.1.1 < h.2.1.2 ∧ h.2.1.2 ≤ text.length) →
      List.Sublist (outsideChars text.data (hits.map fun h => h.2.1))
        (redact text hits).data) := by
  refine ⟨rfl, ?_⟩
  intro hdis hwf
  cases hits with
  | nil =>
    unfold outsideChars
    rw [List.map_nil, outsideFrom_nil_spans, List.drop_zero]
    exact List.Sublist.refl _
  | cons h t =>
    have hperm : (sortHits (h :: t)).Perm (h :: t) := perm_sortHits _
    have hspanperm : ((sortHits (h :: t)).map fun x => x.2.1).Perm
        ((h :: t).map fun x => x.2.1) := hperm.map _
    have hout : outsideChars text.data ((h :: t).map fun x => x.2.1)
        = outsideChars text.data ((sortHits (h :: t)).map fun x => x.2.1) := by
      unfold outsideChars outsideFrom
      rw [List.filter_congr fun p _ => by
        rw [show inSpans p.1 ((h :: t).map fun x => x.2.1)
            = inSpans p.1 ((sortHits (h :: t)).map fun x => x.2.1) from
          any_congr_perm hspanperm.symm _]]
    rw [hout]
    have hchain : ChainFrom 0 (sortHits (h :: t)) := by
      apply chainFrom_build _ 0 (sorted_sortHits _)
        ((List.Perm.pairwise_iff (fun hd => Or.symm hd) hperm).mpr hdis)
        (fun g hg => (hwf g (hperm.mem_iff.mp hg)).1)
        (fun g _ => Nat.zero_le _)
    exact outsideFrom_sublist_redactLoop text.data (sortHits (h :: t)) 0 hchain

/-- Witness for C8: an email hit inside a short message; the empty-hit
round-trip and the frame sublist at a concrete input. -/
theorem c8_redact_frame_witness :
    redact "call a@b.co now" [] = "call a@b.co now" ∧
    List.Sublist (outsideChars "call a@b.co now".data
        ([(("EMAIL", (5, 11), "a@b.co") : Hit)].map fun h => h.2.1))
      (redact "call a@b.co now" [("EMAIL", (5, 11), "a@b.co")]).data :=
  ⟨(c8_redact_frame "call a@b.co now" [("EMAIL", (5, 11), "a@b.co")]).1,
   (c8_redact_frame "call a@b.co now" [("EMAIL", (5, 11), "a@b.co")]).2
     (by decide) (by decide)⟩

/-- C9 counterexample: `redact` does *not* drop the later of two overlapping
hits. With spans `(0,4)` and `(2,6)` on `"abcdef"`, both masks are emitted
(the claim's behaviour — dropping the later hit — would instead produce the
first mask followed by `"ef"`). -/
theorem c9_overlap_not_dropped :
    redact "abcdef"
        [("CARD", (0, 4), "4111111111111111"), ("CARD", (2, 6), "5500005555555559")]
      = "**** **** **** 1111**** **** **** 5559" ∧
    redact "abcdef"
        [("CARD", (0, 4), "4111111111111111"), ("CARD", (2, 6), "5500005555555559")]
      ≠ "**** **** **** 1111ef" := by
  constructor
  · decide
  · decide

/-- C9 (amended): `redact` neither rejects nor deduplicates overlapping hits.
It stable-sorts by start offset only and applies every hit exactly once, in
order: every hit's mask — including the mask of a later, overlapping hit —
appears in the output (the overlapping gap is truncated to the empty slice
instead of the hit being dropped), and the output is a deterministic function
of the hit list. -/
theorem c9_redact_never_drops (text : String) (hits : List Hit) (h : Hit)
    (hmem : h ∈ hits) :
    List.Sublist (maskOf h.1 h.2.2) (redact text hits).data := by
  cases hits with
  | nil => exact absurd hmem (List.not_mem_nil h)
  | cons g t =>
    have hmem' : h ∈ sortHits (g :: t) := (perm_sortHits (g :: t)).mem_iff.mpr hmem
    exact mask_sublist_redactLoop text.data (sortHits (g :: t)) 0 h hmem'

/-! ## PII-detection lemmas (towards C7) -/

/-- The characterization of CARD hits: a span is reported as a CARD hit
exactly when it is a `CARD_RE` candidate, does not overlap the guarded
spans, and its stripped digits pass the Luhn check. -/
theorem card_hit_iff (phoneLib : Option (String → Option String))
    (text : String) (s e : Nat) :
    (∃ v, (("CARD", (s, e), v) : Hit) ∈ detect_pii phoneLib text) ↔
      ((s, e) ∈ card_candidates text.data ∧
       _overlaps (s, e) (guarded_spans text.data) = false ∧
       _luhn_ok (String.mk ((pySlice text.data s e).filter Char.isDigit))
         = true) := by
  constructor
  · rintro ⟨v, hv⟩
    simp only [detect_pii, List.mem_append] at hv
    rcases hv with (hv | hv) | hv
    · rcases List.mem_filterMap.mp hv with ⟨sp, _, heq⟩
      by_cases ho : _overlaps sp (guarded_spans text.data) = true
      · rw [if_pos ho] at heq; cases heq
      · rw [if_neg ho] at heq; simp at heq
    · cases phoneLib with
      | none => simp at hv
      | some f =>
        rcases List.mem_filterMap.mp hv with ⟨sp, _, heq⟩
        by_cases ho : _overlaps sp (guarded_spans text.data) = true
        · rw [if_pos ho] at heq; cases heq
        · rw [if_neg ho] at heq
          cases hf : f (String.mk (pySlice text.data sp.1 sp.2)) with
          | none => rw [hf] at heq; cases heq
          | some e164 => rw [hf] at heq; simp at heq
    · rcases List.mem_filterMap.mp hv with ⟨sp, hsp, heq⟩
      by_cases ho : _overlaps sp (guarded_spans text.data) = true
      · rw [if_pos ho] at heq; cases heq
      · rw [if_neg ho] at heq
        by_cases hl : _luhn_ok
            (String.mk ((pySlice text.data sp.1 sp.2).filter Char.isDigit))
            = true
        · rw [if_pos hl] at heq
          simp only [Option.some.injEq, Prod.mk.injEq] at heq
          obtain ⟨-, hsp', hval⟩ := heq
          subst hsp'
          exact ⟨hsp, Bool.not_eq_true _ ▸ ho, hl⟩
        · rw [if_neg hl] at heq; cases heq
  · rintro ⟨hcand, hover, hluhn⟩
    refine ⟨String.mk ((pySlice text.data s e).filter Char.isDigit), ?_⟩
    simp only [detect_pii, List.mem_append]
    right
    apply List.mem_filterMap.mpr
    refine ⟨(s, e), hcand, ?_⟩
    rw [if_neg (by simp [hover]), if_pos hluhn]

/-- C7: a 13–19-digit candidate run is accepted by `detect_pii` as a CARD hit
iff its span does not overlap any guarded span and its stripped digit string
passes the Luhn mod-10 checksum; `4111111111111111` passes Luhn while
`4111111111111112` fails; and a digit sequence lying inside a code-span guard
(in particular a fenced code block) never becomes a CARD hit, regardless of
Luhn validity. -/
theorem c7_card_detection (phoneLib : Option (String → Option String))
    (text : String) (s e : Nat) :
    ((∃ v, (("CARD", (s, e), v) : Hit) ∈ detect_pii phoneLib text) ↔
      ((s, e) ∈ card_candidates text.data ∧
       _overlaps (s, e) (guarded_spans text.data) = false ∧
       _luhn_ok (String.mk ((pySlice text.data s e).filter Char.isDigit))
         = true)) ∧
    _luhn_ok "4111111111111111" = true ∧
    _luhn_ok "4111111111111112" = false ∧
    (∀ g ∈ findMatches CODE_RE text.data, g.1 ≤ s → e ≤ g.2 → s < e →
      ∀ v, (("CARD", (s, e), v) : Hit) ∉ detect_pii phoneLib text) := by
  refine ⟨card_hit_iff phoneLib text s e, by decide, by decide, ?_⟩
  intro g hg hgs hge hse v hv
  have hover : _overlaps (s, e) (guarded_spans text.data) = false :=
    ((card_hit_iff phoneLib text s e).mp ⟨v, hv⟩).2.1
  have htrue : _overlaps (s, e) (guarded_spans text.data) = true := by
    unfold _overlaps
    rw [List.any_eq_true]
    refine ⟨g, ?_, ?_⟩
    · unfold guarded_spans
      rw [List.mem_append, List.mem_append]
      exact Or.inl (Or.inr hg)
    · have h1 : decide (e ≤ g.1) = false := by
        rw [decide_eq_false_iff_not]
        omega
      have h2 : decide (s ≥ g.2) = false := by
        rw [decide_eq_false_iff_not]
        omega
      show (!(decide (e ≤ g.1) || decide (s ≥ g.2))) = true
      rw [h1, h2]
      rfl
  rw [hover] at htrue
  cases htrue

/-- Witness for C7: the Luhn-valid card inside a fenced code block is
suppressed, and the same card in plain text is reported. -/
theorem c7_card_detection_witness :
    _luhn_ok "4111111111111111" = true ∧
    ((("CARD", ((7 : Nat), (23 : Nat)), "4111111111111111") : Hit) ∉
      detect_pii none "see ```4111111111111111``` ok") ∧
    (∃ v, (("CARD", ((4 : Nat), (20 : Nat)), v) : Hit) ∈
      detect_pii none "pay 4111111111111111 now") :=
  ⟨(c7_card_detection none "see ```4111111111111111``` ok" 7 23).2.1,
   (c7_card_detection none "see ```4111111111111111``` ok" 7 23).2.2.2
     (4, 26) (by decide) (by decide) (by decide) (by decide) "4111111111111111",
   (c7_card_detection none "pay 4111111111111111 now" 4 20).1.mpr
     ⟨by decide, by decide, by decide⟩⟩

/-! ## Entry-point totality (C10) -/

/-- The tier returned by the cascade on a non-blank string is the tier
produced by the override engine on that raw string. -/
theorem cascade_tier_eq (A : Artifacts) (s : String)
    (hs : pyStripEmpty s = false) :
    (score_comment_cascade A (PyVal.strVal s)).tier
      = (apply_overrides s
          (escalateStage A.has_bert (A.lr_prob (normalize_text (PyVal.strVal s)))
            (A.bert_calibrator (A.bert_prob_raw
              (normalize_text (PyVal.strVal s))))).1
          (initial_tier A.policy
            (escalateStage A.has_bert (A.lr_prob (normalize_text (PyVal.strVal s)))
              (A.bert_calibrator (A.bert_prob_raw
                (normalize_text (PyVal.strVal s))))).1)).2 := by
  unfold score_comment_cascade
  rw [show ((!(PyVal.strVal s).isStr) || pyStripEmpty (pyStr (PyVal.strVal s)))
      = false from by
    rw [show (PyVal.strVal s).isStr = true from rfl,
      show pyStr (PyVal.strVal s) = s from rfl, hs]
    rfl]
  simp only [Bool.false_eq_true, if_false]
  rfl

/-- C10 counterexample: a non-string input at the cascade entry point is
*not* coerced and processed through the pipeline — it short-circuits to the
default VERY_LOW result. Processing its textual form `['idiot']` through the
pipeline would instead hit the blocklist and force OVERRIDE_TOXIC. -/
theorem c10_nonstring_not_processed :
    pyStr (PyVal.listVal ["idiot"]) = "['idiot']" ∧
    (score_comment_cascade
        ⟨false, fun _ => 0, fun _ => 0, fun q => q, ⟨1, 1, 1⟩, none⟩
        (PyVal.listVal ["idiot"])).tier = "VERY_LOW" ∧
    (score_comment_cascade
        ⟨false, fun _ => 0, fun _ => 0, fun q => q, ⟨1, 1, 1⟩, none⟩
        (PyVal.strVal "['idiot']")).tier = "OVERRIDE_TOXIC" := by
  refine ⟨rfl, rfl, ?_⟩
  have hmeta : META_PATTERNS.any
      (fun pt => reSearch pt "['idiot']".data) = false := by decide
  have hblock : BLOCKLIST_PATTERNS.any
      (fun pt => reSearch pt "['idiot']".data) = true := by decide
  rw [cascade_tier_eq _ _ (by decide)]
  simp only [apply_overrides, hmeta, hblock, Bool.false_eq_true, if_false,
    if_true]

/-- C10 (amended): non-string input at the comment-analysis entry point
short-circuits to the default result — probability `0.0`, tier `VERY_LOW`,
no PII hits, the input returned unredacted, not escalated — keeping scoring
total without invoking the pipeline; `normalize_text` itself, by contrast,
does coerce non-string input to its textual representation (`str()`) before
normalizing and never fails. -/
theorem c10_nonstring_shortcircuit (A : Artifacts) (v : PyVal) :
    (v.isStr = false → score_comment_cascade A v = ⟨0, "VERY_LOW", [], v, false⟩) ∧
    normalize_text v = normalize_text (PyVal.strVal (pyStr v)) := by
  constructor
  · intro hv
    unfold score_comment_cascade
    rw [show ((!v.isStr) || pyStripEmpty (pyStr v)) = true from by
      rw [hv]; rfl]
    rw [if_pos rfl]
  · rfl

/-- Witness for the amended C10 at the integer input `7`. -/
theorem c10_nonstring_shortcircuit_witness :
    (PyVal.intVal 7).isStr = false ∧
    score_comment_cascade
        ⟨false, fun _ => 0, fun _ => 0, fun q => q, ⟨1, 1, 1⟩, none⟩
        (PyVal.intVal 7)
      = ⟨0, "VERY_LOW", [], PyVal.intVal 7, false⟩ :=
  ⟨rfl, (c10_nonstring_shortcircuit
    ⟨false, fun _ => 0, fun _ => 0, fun q => q, ⟨1, 1, 1⟩, none⟩
    (PyVal.intVal 7)).1 rfl⟩

/-- Witness for the amended C9 at two overlapping hits: the later hit's mask
still appears in the output. -/
theorem c9_redact_never_drops_witness :
    (("CARD", ((2 : Nat), (6 : Nat)), "5500005555555559") : Hit) ∈
      [(("CARD", ((0 : Nat), (4 : Nat)), "4111111111111111") : Hit),
       ("CARD", (2, 6), "5500005555555559")] ∧
    List.Sublist (maskOf "CARD" "5500005555555559")
      (redact "abcdef"
        [("CARD", (0, 4), "4111111111111111"),
         ("CARD", (2, 6), "5500005555555559")]).data :=
  ⟨by decide,
   c9_redact_never_drops "abcdef"
     [("CARD", (0, 4), "4111111111111111"), ("CARD", (2, 6), "5500005555555559")]
     ("CARD", (2, 6), "5500005555555559") (by decide)⟩

end Cascade
